import Mathlib

/-!
Verification of the terraform-plugin-framework core: a shallow embedding of
the Type/Value algebra (types/string.go, types/number.go, types/list.go,
types/map.go, types/object.go), the schema and nested-attribute tree
(schema/schema.go, schema/nested_attributes.go), and the parts of the
reflection marshaling engine evidenced by internal/reflect/struct_test.go.

Go maps are modelled as association lists with unique keys (a representation
invariant of Go maps); Go interface values that may be nil are modelled with
an explicit nil constructor (AttrType.nilT) or Option.  big.Float numeric
payloads are modelled as Rat, matching the arbitrary-precision contract.
-/

namespace TfFw

/-! ## Wire model (external library terraform-plugin-go/tftypes)

The core consumes tftypes.Type / tftypes.Value from its wire collaborator.
Only the operations the repository calls are modelled: Type().Is, IsKnown,
IsNull, As, NewValue, ValidateValue. -/

/-- Wire type descriptors: tftypes.String/Bool/Number/List/Map/Object. -/
inductive TfType where
  | string
  | bool
  | number
  | list (elementType : TfType)
  | map (attributeType : TfType)
  | object (attributeTypes : List (String × TfType))

mutual
/-- A wire value: its declared wire type plus tri-state content
(tftypes.Value). -/
inductive TfValue where
  | mk (typ : TfType) (content : TfContent)

/-- Content of a wire value; unknown and null carry no payload.  The same
constructors serve as the raw payload accepted by tftypes.NewValue
(Go interface values: tftypes.UnknownValue, nil, string, *big.Float — with
numNil for a non-nil interface holding a nil *big.Float pointer — bool,
a slice of values, and map of values for both Map and Object). -/
inductive TfContent where
  | unknown
  | null
  | str (s : String)
  | num (q : Rat)
  | numNil
  | boolv (b : Bool)
  | coll (elems : List TfValue)
  | mapc (elems : List (String × TfValue))
end

/-- The raw payload argument of tftypes.NewValue. -/
abbrev TfRaw := TfContent

/-- The declared wire type of a value (tftypes.Value.Type). -/
def TfValue.typ : TfValue → TfType
  | .mk t _ => t

/-- The content of a wire value. -/
def TfValue.content : TfValue → TfContent
  | .mk _ c => c

/-- Wire-level known flag (tftypes.Value.IsKnown). -/
def TfValue.isKnown : TfValue → Bool
  | .mk _ .unknown => false
  | _ => true

/-- Wire-level null flag (tftypes.Value.IsNull). -/
def TfValue.isNull : TfValue → Bool
  | .mk _ .null => true
  | _ => false

/-- Pairing of a wire type with a raw payload (tftypes.NewValue).  The Go
function also validates and panics on mismatch; validation is modelled
separately by validateRaw. -/
def newValue (t : TfType) (raw : TfRaw) : TfValue := .mk t raw

mutual
/-- Deep wire-type equality, as used by tftypes.Type.Is when the argument
has all its element/attribute types populated (no wildcards). -/
def tfTypeEq : TfType → TfType → Bool
  | .string, .string => true
  | .bool, .bool => true
  | .number, .number => true
  | .list a, .list b => tfTypeEq a b
  | .map a, .map b => tfTypeEq a b
  | .object as_, .object bs => as_.length == bs.length && tfTypeFieldsEq as_ bs
  | _, _ => false

/-- Per-key comparison of object attribute types (Go map iteration plus
indexing, order-independent). -/
def tfTypeFieldsEq : List (String × TfType) → List (String × TfType) → Bool
  | [], _ => true
  | (k, a) :: rest, bs =>
    (match bs.lookup k with
     | some b => tfTypeEq a b
     | none => false) && tfTypeFieldsEq rest bs
end

/-- The wildcard check in.Type().Is(tftypes.Map{}) from map.go: an element
type left unset matches any map. -/
def isMapTfType : TfType → Bool
  | .map _ => true
  | _ => false

mutual
/-- Validation of a raw payload against a wire type
(tftypes.ValidateValue): unknown and null are always accepted; a known
payload must match the type's shape, and collection members must carry the
declared element/attribute wire type. -/
def validateRaw : TfType → TfRaw → Bool
  | _, .unknown => true
  | _, .null => true
  | .string, .str _ => true
  | .number, .num _ => true
  | .bool, .boolv _ => true
  | .list et, .coll vs => validateElems et vs
  | .map at_, .mapc kvs => validateMapElems at_ kvs
  | .object ats, .mapc kvs =>
    kvs.length == ats.length && validateObjElems ats kvs
  | _, _ => false

/-- Each list member must carry the element wire type. -/
def validateElems (et : TfType) : List TfValue → Bool
  | [] => true
  | v :: rest => tfTypeEq v.typ et && validateElems et rest

/-- Each map member must carry the element wire type. -/
def validateMapElems (at_ : TfType) : List (String × TfValue) → Bool
  | [] => true
  | (_, v) :: rest => tfTypeEq v.typ at_ && validateMapElems at_ rest

/-- Each object member must carry the wire type registered for its key. -/
def validateObjElems (ats : List (String × TfType)) : List (String × TfValue) → Bool
  | [] => true
  | (k, v) :: rest =>
    (match ats.lookup k with
     | some t => tfTypeEq v.typ t
     | none => false) && validateObjElems ats rest
end

/-! ## The framework Type algebra (attr.Type and its implementations)

attr.Type is a sealed set of variants in this core: StringType, BoolType,
NumberType (primitives), ObjectType (object.go), ListType (list.go),
MapType (map.go).  nilT models a nil Go interface value of type attr.Type:
ListType.Equal and MapType.Equal test for it explicitly, and
ObjectType.ApplyTerraform5AttributePathStep can return it. -/

inductive AttrType where
  | stringT
  | boolT
  | numberT
  | nilT
  | objectT (attrTypes : List (String × AttrType))
  | listT (elemType : AttrType)
  | mapT (elemType : AttrType)

mutual
/-- Syntactic structural equality of AttrType terms (used to state
conformance hypotheses; distinct from the source's Equal method below). -/
def AttrType.beq : AttrType → AttrType → Bool
  | .stringT, .stringT => true
  | .boolT, .boolT => true
  | .numberT, .numberT => true
  | .nilT, .nilT => true
  | .objectT as_, .objectT bs => AttrType.beqFields as_ bs
  | .listT a, .listT b => AttrType.beq a b
  | .mapT a, .mapT b => AttrType.beq a b
  | _, _ => false

/-- Positional syntactic equality of attribute-type lists. -/
def AttrType.beqFields : List (String × AttrType) → List (String × AttrType) → Bool
  | [], [] => true
  | (k, a) :: as_, (k', b) :: bs => k == k' && AttrType.beq a b && AttrType.beqFields as_ bs
  | _, _ => false
end

mutual
/-- The wire shape of a Type (TerraformType in list.go:41, map.go:36,
object.go:35; the primitive mappings String/Bool/Number are fixed by the
wire protocol).  Calling TerraformType on a nil Go interface is a fatal
fault; the value returned for nilT here is arbitrary and unreachable for
well-formed types. -/
def AttrType.terraformType : AttrType → TfType
  | .stringT => .string
  | .boolT => .bool
  | .numberT => .number
  | .nilT => .object []
  | .objectT ts => .object (AttrType.terraformTypeFields ts)
  | .listT e => .list e.terraformType
  | .mapT e => .map e.terraformType

/-- Wire shapes of an object's attribute types (object.go:36-39). -/
def AttrType.terraformTypeFields : List (String × AttrType) → List (String × TfType)
  | [] => []
  | (k, t) :: rest => (k, t.terraformType) :: AttrType.terraformTypeFields rest
end

mutual
/-- The Equal method of the Type variants: ListType.Equal (list.go:83)
first rejects a nil ElemType, then requires the same variant and equal
element types; MapType.Equal (map.go:81) likewise; ObjectType.Equal
(object.go:84) requires the same attribute count and pairwise-equal types
per key.  Primitive Equal methods (missing primitive source file) accept
exactly their own variant.  Calling Equal on a nil interface is a fatal
fault in Go; nilT returns false here, unreachable for well-formed types. -/
def AttrType.equal : AttrType → AttrType → Bool
  | .stringT, .stringT => true
  | .boolT, .boolT => true
  | .numberT, .numberT => true
  | .nilT, _ => false
  | .listT e, o =>
    !(e.beq .nilT) &&
      (match o with
       | .listT e' => e.equal e'
       | _ => false)
  | .mapT e, o =>
    !(e.beq .nilT) &&
      (match o with
       | .mapT e' => e.equal e'
       | _ => false)
  | .objectT ts, o =>
    (match o with
     | .objectT ts' => ts'.length == ts.length && AttrType.equalFields ts ts'
     | _ => false)
  | _, _ => false

/-- ObjectType.Equal's loop (object.go:92-100): every key of the receiver
must be present in the candidate with an Equal type. -/
def AttrType.equalFields : List (String × AttrType) → List (String × AttrType) → Bool
  | [], _ => true
  | (k, v) :: rest, ts' =>
    (match ts'.lookup k with
     | some v' => v.equal v'
     | none => false) && AttrType.equalFields rest ts'
end

mutual
/-- Well-formedness of a Type term: built from the six variants without nil
interface values, and object attribute maps have unique keys (the Go map
representation invariant). -/
def AttrType.wf : AttrType → Bool
  | .stringT => true
  | .boolT => true
  | .numberT => true
  | .nilT => false
  | .objectT ts => decide ((ts.map Prod.fst).Nodup) && AttrType.wfFields ts
  | .listT e => e.wf
  | .mapT e => e.wf

/-- Well-formedness of each attribute type in an object. -/
def AttrType.wfFields : List (String × AttrType) → Bool
  | [] => true
  | (_, t) :: rest => t.wf && AttrType.wfFields rest
end

/-! ## Path steps (tftypes.AttributePathStep) -/

/-- A single addressing step: AttributeName, ElementKeyInt,
ElementKeyString or ElementKeyValue. -/
inductive PathStep where
  | attributeName (name : String)
  | elementKeyInt (i : Int)
  | elementKeyString (s : String)
  | elementKeyValue (v : TfValue)

/-- Errors from applying a path step. -/
inductive StepErr where
  | cannotApply (receiver : String)
  | notFoundAttr (name : String)
  | schemaNotFound (name : String)
  | fatal
deriving DecidableEq

/-- Path stepping on Types: ObjectType.ApplyTerraform5AttributePathStep
(object.go:106) accepts only AttributeName and returns the Go map index
o.AttrTypes[name] — the nil interface value, with no error, when the name
is absent; ListType (list.go:96) accepts only ElementKeyInt and returns its
single element type; MapType (map.go:94) accepts only ElementKeyString and
returns its single element type.  Primitive types and a nil receiver have
no stepper behavior evidenced in the source; stepping them is modelled as a
cannot-apply error. -/
def AttrType.applyStep : AttrType → PathStep → Except StepErr AttrType
  | .objectT ts, .attributeName n => .ok ((ts.lookup n).getD .nilT)
  | .objectT _, _ => .error (.cannotApply "ObjectType")
  | .listT e, .elementKeyInt _ => .ok e
  | .listT _, _ => .error (.cannotApply "ListType")
  | .mapT e, .elementKeyString _ => .ok e
  | .mapT _, _ => .error (.cannotApply "MapType")
  | .stringT, _ => .error (.cannotApply "StringType")
  | .boolT, _ => .error (.cannotApply "BoolType")
  | .numberT, _ => .error (.cannotApply "NumberType")
  | .nilT, _ => .error .fatal

/-! ## The framework Value model (attr.Value and its implementations)

Each variant mirrors its Go struct: String{Unknown, Null, Value},
Number{Unknown, Null, Value *big.Float} (a nil pointer modelled as none),
Bool, List{Unknown, Null, Elems, ElemType}, Map{Unknown, Null, Elems,
ElemType}, Object{Unknown, Null, Attrs, AttrTypes}. -/

inductive AttrValue where
  | str (unknown null : Bool) (value : String)
  | num (unknown null : Bool) (value : Option Rat)
  | boolv (unknown null : Bool) (value : Bool)
  | list (unknown null : Bool) (elems : List AttrValue) (elemType : AttrType)
  | mapv (unknown null : Bool) (elems : List (String × AttrValue)) (elemType : AttrType)
  | obj (unknown null : Bool) (attrs : List (String × AttrValue)) (attrTypes : List (String × AttrType))

/-- Errors surfaced by ValueFromTerraform / ToTerraformValue.  typeMismatch
is the shape-mismatch error path; asFailure a failed tftypes.Value.As;
validateFailed a failed tftypes.ValidateValue during encoding; fatal models
a method call on a nil Go interface (a panic, per the error-handling design
a programmer-error fault). -/
inductive ConvError where
  | typeMismatch
  | asFailure
  | validateFailed
  | fatal
deriving DecidableEq

/-- Decoding a wire value as a String (string.go:10-23): the tri-state
flags are checked before anything else; no wire-type check is performed. -/
def stringValueFromTerraform (v : TfValue) : Except ConvError AttrValue :=
  if v.isKnown = false then .ok (.str true false "")
  else if v.isNull then .ok (.str false true "")
  else
    match v.content with
    | .str s => .ok (.str false false s)
    | _ => .error .asFailure

/-- Decoding a wire value as a Number (number.go:78-91): flags first, then
As into a *big.Float. -/
def numberValueFromTerraform (v : TfValue) : Except ConvError AttrValue :=
  if v.isKnown = false then .ok (.num true false none)
  else if v.isNull then .ok (.num false true none)
  else
    match v.content with
    | .num q => .ok (.num false false (some q))
    | _ => .error .asFailure

/-- Modelled from the spec: the Bool primitive's decode (its source file is
absent); mirrors the String and Number helpers — tri-state flags first,
then the payload. -/
def boolValueFromTerraform (v : TfValue) : Except ConvError AttrValue :=
  if v.isKnown = false then .ok (.boolv true false false)
  else if v.isNull then .ok (.boolv false true false)
  else
    match v.content with
    | .boolv b => .ok (.boolv false false b)
    | _ => .error .asFailure

mutual
/-- Type-directed decode of a wire value (the ValueFromTerraform methods).
ListType (list.go:50): the wire type is checked against the Type's wire
shape before the tri-state flags; then unknown/null short-circuit; then
each element is decoded with the element Type, failing fast.  MapType
(map.go:45): first the is-a-map wildcard check, then the exact wire-type
check, then the same tri-state and element handling.  ObjectType
(object.go:48): exact wire-type check, tri-state, then each wire attribute
is decoded with the Type registered for its key — a key without a
registered Type dereferences a nil interface (fatal).  Primitives dispatch
to their helpers, which perform no wire-type check. -/
def valueFromTerraform : AttrType → TfValue → Except ConvError AttrValue
  | .stringT, v => stringValueFromTerraform v
  | .numberT, v => numberValueFromTerraform v
  | .boolT, v => boolValueFromTerraform v
  | .nilT, _ => .error .fatal
  | .listT et, .mk ty c =>
    if tfTypeEq ty (AttrType.terraformType (.listT et)) = false then
      .error .typeMismatch
    else
      match c with
      | .unknown => .ok (.list true false [] et)
      | .null => .ok (.list false true [] et)
      | .coll vs =>
        (match elemsFromTerraform et vs with
         | .ok elems => .ok (.list false false elems et)
         | .error e => .error e)
      | _ => .error .asFailure
  | .mapT et, .mk ty c =>
    if isMapTfType ty = false then .error .typeMismatch
    else if tfTypeEq ty (AttrType.terraformType (.mapT et)) = false then
      .error .typeMismatch
    else
      match c with
      | .unknown => .ok (.mapv true false [] et)
      | .null => .ok (.mapv false true [] et)
      | .mapc kvs =>
        (match mapElemsFromTerraform et kvs with
         | .ok elems => .ok (.mapv false false elems et)
         | .error e => .error e)
      | _ => .error .asFailure
  | .objectT ts, .mk ty c =>
    if tfTypeEq ty (AttrType.terraformType (.objectT ts)) = false then
      .error .typeMismatch
    else
      match c with
      | .unknown => .ok (.obj true false [] ts)
      | .null => .ok (.obj false true [] ts)
      | .mapc kvs =>
        (match objAttrsFromTerraform ts kvs with
         | .ok attrs => .ok (.obj false false attrs ts)
         | .error e => .error e)
      | _ => .error .asFailure

/-- The element loop of ListType.ValueFromTerraform (list.go:70-77). -/
def elemsFromTerraform (et : AttrType) : List TfValue → Except ConvError (List AttrValue)
  | [] => .ok []
  | v :: rest =>
    match valueFromTerraform et v with
    | .error e => .error e
    | .ok av =>
      match elemsFromTerraform et rest with
      | .error e => .error e
      | .ok avs => .ok (av :: avs)

/-- The element loop of MapType.ValueFromTerraform (map.go:68-75). -/
def mapElemsFromTerraform (et : AttrType) : List (String × TfValue) → Except ConvError (List (String × AttrValue))
  | [] => .ok []
  | (k, v) :: rest =>
    match valueFromTerraform et v with
    | .error e => .error e
    | .ok av =>
      match mapElemsFromTerraform et rest with
      | .error e => .error e
      | .ok avs => .ok ((k, av) :: avs)

/-- The attribute loop of ObjectType.ValueFromTerraform (object.go:71-77):
each wire attribute is decoded with object.AttrTypes[k]. -/
def objAttrsFromTerraform (ts : List (String × AttrType)) : List (String × TfValue) → Except ConvError (List (String × AttrValue))
  | [] => .ok []
  | (k, v) :: rest =>
    match ts.lookup k with
    | none => .error .fatal
    | some kt =>
      match valueFromTerraform kt v with
      | .error e => .error e
      | .ok av =>
        match objAttrsFromTerraform ts rest with
        | .error e => .error e
        | .ok avs => .ok ((k, av) :: avs)
end

mutual
/-- Encoding a Value to a raw wire payload (the ToTerraformValue methods).
String (string.go:44) checks Null before Unknown; Number (number.go:113)
likewise, and a known nil *big.Float is returned as-is (numNil).  List
(list.go:147) checks Unknown before Null, then encodes each element,
re-validating it against the element Type's wire shape before wrapping it
with NewValue; Map (map.go:153) and Object (object.go:173) do the same,
Object validating each attribute against the wire shape of the Type
registered for its key (a missing key dereferences a nil interface). -/
def AttrValue.toTerraformValue : AttrValue → Except ConvError TfRaw
  | .str u n s =>
    if n then .ok .null
    else if u then .ok .unknown
    else .ok (.str s)
  | .num u n q =>
    if n then .ok .null
    else if u then .ok .unknown
    else
      match q with
      | some q' => .ok (.num q')
      | none => .ok .numNil
  | .boolv u n b =>
    if n then .ok .null
    else if u then .ok .unknown
    else .ok (.boolv b)
  | .list u n elems et =>
    if u then .ok .unknown
    else if n then .ok .null
    else
      match elemsToTerraform et elems with
      | .ok vs => .ok (.coll vs)
      | .error e => .error e
  | .mapv u n elems et =>
    if u then .ok .unknown
    else if n then .ok .null
    else
      match mapElemsToTerraform et elems with
      | .ok kvs => .ok (.mapc kvs)
      | .error e => .error e
  | .obj u n attrs ts =>
    if u then .ok .unknown
    else if n then .ok .null
    else
      match objAttrsToTerraform ts attrs with
      | .ok kvs => .ok (.mapc kvs)
      | .error e => .error e

/-- The element loop of List.ToTerraformValue (list.go:154-165). -/
def elemsToTerraform (et : AttrType) : List AttrValue → Except ConvError (List TfValue)
  | [] => .ok []
  | v :: rest =>
    match v.toTerraformValue with
    | .error e => .error e
    | .ok raw =>
      if validateRaw et.terraformType raw = false then .error .validateFailed
      else
        match elemsToTerraform et rest with
        | .error e => .error e
        | .ok vs => .ok (newValue et.terraformType raw :: vs)

/-- The element loop of Map.ToTerraformValue (map.go:160-171). -/
def mapElemsToTerraform (et : AttrType) : List (String × AttrValue) → Except ConvError (List (String × TfValue))
  | [] => .ok []
  | (k, v) :: rest =>
    match v.toTerraformValue with
    | .error e => .error e
    | .ok raw =>
      if validateRaw et.terraformType raw = false then .error .validateFailed
      else
        match mapElemsToTerraform et rest with
        | .error e => .error e
        | .ok kvs => .ok ((k, newValue et.terraformType raw) :: kvs)

/-- The attribute loop of Object.ToTerraformValue (object.go:182-192). -/
def objAttrsToTerraform : List (String × AttrType) → List (String × AttrValue) → Except ConvError (List (String × TfValue))
  | _, [] => .ok []
  | ts, (k, v) :: rest =>
    match v.toTerraformValue with
    | .error e => .error e
    | .ok raw =>
      match ts.lookup k with
      | none => .error .fatal
      | some kt =>
        if validateRaw kt.terraformType raw = false then .error .validateFailed
        else
          match objAttrsToTerraform ts rest with
          | .error e => .error e
          | .ok kvs => .ok ((k, newValue kt.terraformType raw) :: kvs)
end

mutual
/-- The Equal methods of the Value variants: each requires the same variant,
identical Unknown and Null flags, and then compares the residual payload
unconditionally — String.Equal (string.go:55) compares Value; Number.Equal
(number.go:124) compares the big.Float payloads with nil handling;
List.Equal (list.go:171) compares ElemType, length and elements
positionally; Map.Equal (map.go:177) compares ElemType, size and elements
per key; Object.Equal (object.go:198) compares AttrTypes and Attrs per
key. -/
def AttrValue.equal : AttrValue → AttrValue → Bool
  | .str u n s, o =>
    (match o with
     | .str u' n' s' => u == u' && n == n' && s == s'
     | _ => false)
  | .num u n q, o =>
    (match o with
     | .num u' n' q' =>
       u == u' && n == n' &&
         (match q, q' with
          | none, none => true
          | some a, some b => a == b
          | _, _ => false)
     | _ => false)
  | .boolv u n b, o =>
    (match o with
     | .boolv u' n' b' => u == u' && n == n' && b == b'
     | _ => false)
  | .list u n elems et, o =>
    (match o with
     | .list u' n' elems' et' =>
       u == u' && n == n' && et.equal et' && elems.length == elems'.length &&
         AttrValue.elemsEqual elems elems'
     | _ => false)
  | .mapv u n elems et, o =>
    (match o with
     | .mapv u' n' elems' et' =>
       u == u' && n == n' && et.equal et' && elems.length == elems'.length &&
         AttrValue.mapElemsEqual elems elems'
     | _ => false)
  | .obj u n attrs ts, o =>
    (match o with
     | .obj u' n' attrs' ts' =>
       u == u' && n == n' && ts.length == ts'.length &&
         AttrType.equalFields ts ts' && attrs.length == attrs'.length &&
         AttrValue.mapElemsEqual attrs attrs'
     | _ => false)

/-- Positional element comparison of List.Equal (list.go:188-193). -/
def AttrValue.elemsEqual : List AttrValue → List AttrValue → Bool
  | [], _ => true
  | _, [] => false
  | a :: as_, b :: bs => a.equal b && AttrValue.elemsEqual as_ bs

/-- Keyed element comparison of Map.Equal (map.go:194-202) and the Attrs
loop of Object.Equal (object.go:224-232). -/
def AttrValue.mapElemsEqual : List (String × AttrValue) → List (String × AttrValue) → Bool
  | [], _ => true
  | (k, a) :: rest, bs =>
    (match bs.lookup k with
     | some b => a.equal b
     | none => false) && AttrValue.mapElemsEqual rest bs
end

mutual
/-- Tri-state exclusivity: the Unknown and Null flags are never both set,
and when either is set the residual payload is the zero value (empty
string, nil number, no elements); known containers satisfy the invariant
recursively. -/
def AttrValue.exclusive : AttrValue → Bool
  | .str u n s => !(u && n) && (if u || n then s == "" else true)
  | .num u n q => !(u && n) && (if u || n then q.isNone else true)
  | .boolv u n b => !(u && n) && (if u || n then b == false else true)
  | .list u n elems _ =>
    !(u && n) && (if u || n then elems.isEmpty else AttrValue.exclusiveList elems)
  | .mapv u n elems _ =>
    !(u && n) && (if u || n then elems.isEmpty else AttrValue.exclusivePairs elems)
  | .obj u n attrs _ =>
    !(u && n) && (if u || n then attrs.isEmpty else AttrValue.exclusivePairs attrs)

/-- Exclusivity of every list element. -/
def AttrValue.exclusiveList : List AttrValue → Bool
  | [] => true
  | v :: rest => v.exclusive && AttrValue.exclusiveList rest

/-- Exclusivity of every keyed element. -/
def AttrValue.exclusivePairs : List (String × AttrValue) → Bool
  | [] => true
  | (_, v) :: rest => v.exclusive && AttrValue.exclusivePairs rest
end

mutual
/-- Conformance of a Value's payload to a declared Type: the variant
matches, declared element/attribute types coincide syntactically with the
Type's, keyed payloads have unique keys (the Go map invariant), every
element conforms to the element Type, every object attribute conforms to
the Type registered for its key, and a known Number carries a non-nil
payload. -/
def AttrValue.conformsTo : AttrValue → AttrType → Bool
  | .str _ _ _, .stringT => true
  | .num u n q, .numberT => if !u && !n then q.isSome else true
  | .boolv _ _ _, .boolT => true
  | .list _ _ elems et, .listT te =>
    et.beq te && AttrValue.conformList elems te
  | .mapv _ _ elems et, .mapT te =>
    et.beq te && decide ((elems.map Prod.fst).Nodup) && AttrValue.conformPairs elems te
  | .obj _ _ attrs ts, .objectT ts' =>
    AttrType.beqFields ts ts' && (attrs.length == ts'.length) &&
      decide ((attrs.map Prod.fst).Nodup) && AttrValue.conformAttrs attrs ts'
  | _, _ => false

/-- Conformance of each list element to the element Type. -/
def AttrValue.conformList : List AttrValue → AttrType → Bool
  | [], _ => true
  | v :: rest, te => v.conformsTo te && AttrValue.conformList rest te

/-- Conformance of each keyed element to the element Type. -/
def AttrValue.conformPairs : List (String × AttrValue) → AttrType → Bool
  | [], _ => true
  | (_, v) :: rest, te => v.conformsTo te && AttrValue.conformPairs rest te

/-- Conformance of each object attribute to the Type registered for its
key. -/
def AttrValue.conformAttrs : List (String × AttrValue) → List (String × AttrType) → Bool
  | [], _ => true
  | (k, v) :: rest, ts =>
    (match ts.lookup k with
     | some kt => v.conformsTo kt
     | none => false) && AttrValue.conformAttrs rest ts
end

/-- Canonical values: unknown or null nodes carry zero-valued residual
payloads (and the two flags are never both set), recursively.  Decoded
values are canonical; hand-constructed values need not be. -/
def AttrValue.canonical : AttrValue → Bool := AttrValue.exclusive

/-! ## Schema and nested attributes (schema/schema.go,
schema/nested_attributes.go)

The Attribute struct's own source file is absent from the repository
snapshot; its two fields Type and Attributes are evidenced by their uses in
schema.go and nested_attributes.go. -/

mutual
/-- A schema attribute: either a leaf Type, a nested-attribute group, or
(degenerately) neither. -/
inductive Attribute where
  | mk (type : Option AttrType) (attributes : Option NestedAttributes)

/-- The four nested-attribute variants of nested_attributes.go, each
carrying the shared attribute map; list, set and map nesting also carry
min/max item bounds. -/
inductive NestedAttributes where
  | single (attrs : List (String × Attribute))
  | listNested (attrs : List (String × Attribute)) (min max : Int)
  | setNested (attrs : List (String × Attribute)) (min max : Int)
  | mapNested (attrs : List (String × Attribute)) (min max : Int)
end

/-- The leaf Type of an attribute. -/
def Attribute.type : Attribute → Option AttrType
  | .mk t _ => t

/-- The nested group of an attribute. -/
def Attribute.attributes : Attribute → Option NestedAttributes
  | .mk _ a => a

/-- The shared attribute map of a nested group (GetAttributes). -/
def NestedAttributes.getAttributes : NestedAttributes → List (String × Attribute)
  | .single attrs => attrs
  | .listNested attrs _ _ => attrs
  | .setNested attrs _ _ => attrs
  | .mapNested attrs _ _ => attrs

mutual
/-- The entry the lowering loop (nested_attributes.go:97-105 and
schema.go:57-65) stores for one attribute: the leaf Type when set,
overridden by the nested group's lowered Type when a group is present (a
group whose lowering is unimplemented stores the nil interface value);
an attribute with neither field contributes no entry. -/
def Attribute.entry : Attribute → Option AttrType
  | .mk t none => t
  | .mk _ (some na) => some na.attributeType

/-- Lowering the shared attribute map of a group to an Object Type
(nestedAttributes.AttributeType, nested_attributes.go:96-109). -/
def nestedObjectType (attrs : List (String × Attribute)) : AttrType :=
  .objectT (loweredEntries attrs)

/-- The entries of the lowered Object Type, in attribute order. -/
def loweredEntries : List (String × Attribute) → List (String × AttrType)
  | [] => []
  | (k, a) :: rest =>
    match a.entry with
    | some t => (k, t) :: loweredEntries rest
    | none => loweredEntries rest

/-- Lowering a nested group to a plain Type (the AttributeType methods):
Single yields the Object built from the children
(nested_attributes.go:96); List wraps it in a ListType
(nested_attributes.go:194); Set (nested_attributes.go:273) and Map
(nested_attributes.go:351) are unimplemented and return the nil interface
value. -/
def NestedAttributes.attributeType : NestedAttributes → AttrType
  | .single attrs => nestedObjectType attrs
  | .listNested attrs _ _ => .listT (nestedObjectType attrs)
  | .setNested _ _ _ => .nilT
  | .mapNested _ _ _ => .nilT
end

/-- A schema: the top-level attribute tree plus metadata (schema.go:24). -/
structure Schema where
  attributes : List (String × Attribute)
  version : Int
  deprecationMessage : String
  description : String
  markdownDescription : String

/-- Lowering a whole schema to an Object Type (Schema.AttributeType,
schema.go:56-67); the loop body is identical to the nested lowering. -/
def Schema.attributeType (s : Schema) : AttrType :=
  .objectT (loweredEntries s.attributes)

/-! ### Walking attribute paths through the schema tree
(tftypes.WalkAttributePath over Schema, Attribute, nestedAttributes and
attr.Type nodes) -/

/-- A node the walk can rest on: the schema root, a schema Attribute, a
nested-attribute map, or a plain Type (the interior of an atomic
attribute). -/
inductive WalkNode where
  | schemaNode (s : Schema)
  | attributeNode (a : Attribute)
  | nestedNode (attrs : List (String × Attribute))
  | typeNode (t : AttrType)

/-- Schema.ApplyTerraform5AttributePathStep (schema.go:45-53): only
AttributeName is accepted; a missing name is a could-not-find error. -/
def Schema.applyStep (s : Schema) : PathStep → Except StepErr WalkNode
  | .attributeName n =>
    match s.attributes.lookup n with
    | some a => .ok (.attributeNode a)
    | none => .error (.schemaNotFound n)
  | _ => .error (.cannotApply "Schema")

/-- The steppers of the nested-attribute variants
(nested_attributes.go): the plain attribute map accepts AttributeName,
returning the named Attribute or a no-attribute error (lines 83-93);
list nesting accepts only ElementKeyInt, set nesting only ElementKeyValue,
map nesting only ElementKeyString, each returning the shared attribute map
(lines 200-206, 278-284, 356-362). -/
def NestedAttributes.applyStep : NestedAttributes → PathStep → Except StepErr WalkNode
  | .single attrs, step =>
    (match step with
     | .attributeName n =>
       (match attrs.lookup n with
        | some a => .ok (.attributeNode a)
        | none => .error (.notFoundAttr n))
     | _ => .error (.cannotApply "Attributes"))
  | .listNested attrs _ _, step =>
    (match step with
     | .elementKeyInt _ => .ok (.nestedNode attrs)
     | _ => .error (.cannotApply "ListNestedAttributes"))
  | .setNested attrs _ _, step =>
    (match step with
     | .elementKeyValue _ => .ok (.nestedNode attrs)
     | _ => .error (.cannotApply "sets"))
  | .mapNested attrs _ _, step =>
    (match step with
     | .elementKeyString _ => .ok (.nestedNode attrs)
     | _ => .error (.cannotApply "maps"))

/-- The stepper of the bare attribute map, reached through list/set/map
nesting (nested_attributes.go:83-93). -/
def nestedMapApplyStep (attrs : List (String × Attribute)) : PathStep → Except StepErr WalkNode
  | .attributeName n =>
    (match attrs.lookup n with
     | some a => .ok (.attributeNode a)
     | none => .error (.notFoundAttr n))
  | _ => .error (.cannotApply "Attributes")

/-- Modelled from the spec: the Attribute stepper (its source file is
absent).  A nested attribute delegates to its group's stepper; stepping
into a leaf-typed attribute's interior yields the plain Type, so that the
walk result carries no field-level schema; an attribute with neither field
is a malformed construction (fatal). -/
def Attribute.applyStep (a : Attribute) (step : PathStep) : Except StepErr WalkNode :=
  match a.attributes with
  | some na => na.applyStep step
  | none =>
    match a.type with
    | some t => .ok (.typeNode t)
    | none => .error .fatal

/-- One step of the walk, dispatching on the node kind; a Type node steps
through the Type's own stepper (path stepping on Types). -/
def WalkNode.applyStep : WalkNode → PathStep → Except StepErr WalkNode
  | .schemaNode s, step => s.applyStep step
  | .attributeNode a, step => a.applyStep step
  | .nestedNode attrs, step => nestedMapApplyStep attrs step
  | .typeNode t, step =>
    match t.applyStep step with
    | .ok t' => .ok (.typeNode t')
    | .error e => .error e

/-- tftypes.WalkAttributePath: apply the steps in order, returning the node
reached, or the remaining path and the error at the failing step. -/
def walkAttributePath : WalkNode → List PathStep → WalkNode × List PathStep × Option StepErr
  | node, [] => (node, [], none)
  | node, step :: rest =>
    match node.applyStep step with
    | .ok next => walkAttributePath next rest
    | .error e => (node, step :: rest, some e)

/-- The two failure modes of Schema.AttributeAtPath (schema.go:113-128):
a failing walk is wrapped with the remaining path; a walk that ends on a
plain Type is the distinct ErrPathInsideAtomicAttribute; a walk that ends
on anything other than an Attribute is an unexpected-type error. -/
inductive AttributeAtPathError where
  | walkError (remaining : List PathStep) (err : StepErr)
  | insideAtomicAttribute
  | unexpectedType

/-- Schema.AttributeAtPath (schema.go:113-128). -/
def Schema.attributeAtPath (s : Schema) (path : List PathStep) : Except AttributeAtPathError Attribute :=
  match walkAttributePath (.schemaNode s) path with
  | (_, remaining, some e) => .error (.walkError remaining e)
  | (res, _, none) =>
    match res with
    | .typeNode _ => .error .insideAtomicAttribute
    | .attributeNode a => .ok a
    | _ => .error .unexpectedType

/-! ## Reflection marshaling engine (internal/reflect)

The engine's implementation files are absent from the repository snapshot;
only its tests (internal/reflect/struct_test.go) and its callers (Into with
reflect.Options from object.go, list.go, map.go) are present.  The pieces
the claims need are modelled from the spec and pinned to the tests' exact
expectations. -/

/-- The decode options consumed by the reflection engine (reflect.Options,
as set from ObjectAsOptions in object.go:136-148). -/
structure Options where
  unhandledNullAsEmpty : Bool
  unhandledUnknownAsEmpty : Bool

/-- Errors of the reflection engine's decode. -/
inductive ReflectErr where
  | fieldMismatch (message : String)
  | unhandledNull
  | unhandledUnknown
  | typeError
deriving DecidableEq

/-- Comma-separated rendering of a name list, as in the test expectations
of struct_test.go. -/
def renderNames : List String → String
  | [] => ""
  | [n] => n
  | n :: rest => n ++ ", " ++ renderNames rest

/-- Modelled from the spec: the field-name mismatch message of the
reflection engine's Struct decode (implementation absent); the exact
message forms are those asserted by struct_test.go:65, 88 and 113. -/
def structMismatchMessage (structOnly objectOnly : List String) : String :=
  "mismatch between struct and object: " ++
    (if structOnly.isEmpty then "" else
      "Struct defines fields not found in object: " ++ renderNames structOnly ++ ".") ++
    (if objectOnly.isEmpty then "" else
      (if structOnly.isEmpty then "" else " ") ++
        "Object defines fields not found in struct: " ++ renderNames objectOnly ++ ".")

/-- Modelled from the spec: the exact-name-match check of the reflection
engine's Struct decode (implementation absent).  The object's attribute
names and the native struct's tfsdk-tagged field names must match exactly;
any asymmetry fails with a single error enumerating the field names
present only in the struct and the attribute names present only in the
object. -/
def checkStructFields (objectAttrs structFields : List String) : Option ReflectErr :=
  let structOnly := structFields.filter (fun n => !(objectAttrs.contains n))
  let objectOnly := objectAttrs.filter (fun n => !(structFields.contains n))
  if structOnly.isEmpty && objectOnly.isEmpty then none
  else some (.fieldMismatch (structMismatchMessage structOnly objectOnly))

/-- Modelled from the spec: placing a wire string value into a plain native
string field (reflection engine decode, implementation absent).  A plain
field cannot represent unknown or null: with the matching option flag
false the decode fails with an unhandled-value error; with it true the
field receives the zero value (the empty string). -/
def buildStringField (opts : Options) (v : TfValue) : Except ReflectErr String :=
  match v.content with
  | .unknown =>
    if opts.unhandledUnknownAsEmpty then .ok "" else .error .unhandledUnknown
  | .null =>
    if opts.unhandledNullAsEmpty then .ok "" else .error .unhandledNull
  | .str s => .ok s
  | _ => .error .typeError

/-! ### The reflection engine's encode (FromStruct), modelled from the spec
for the tri-state exclusivity claim.  Native values cover the shapes
exercised by struct_test.go: primitives of several widths, slices, string
maps, tagged structs, the unknownable/nullable wrappers, and an embedded
attr.Value. -/

/-- A native Go value presented to FromStruct. -/
inductive Native where
  | str (s : String)
  | intv (i : Int)
  | floatv (q : Rat)
  | boolv (b : Bool)
  | slice (elems : List Native)
  | smap (elems : List (String × Native))
  | strct (fields : List (String × Native))
  | unknownable (unknown : Bool) (value : String)
  | nullable (null : Bool) (value : String)
  | attrValue (v : AttrValue)

mutual
/-- Modelled from the spec: FromStruct / the reflection encode
(implementation absent).  Scalars convert through the arbitrary-precision
payload; containers recurse per element; a native value carrying its own
tri-state (unknownable, nullable, or an attr.Value) produces the
corresponding Unknown/Null/Known Value, an embedded attr.Value being routed
through its wire encoding and the target Type's decode. -/
def fromStruct : AttrType → Native → Except ConvError AttrValue
  | .stringT, .str s => .ok (.str false false s)
  | .numberT, .intv i => .ok (.num false false (some (i : Rat)))
  | .numberT, .floatv q => .ok (.num false false (some q))
  | .boolT, .boolv b => .ok (.boolv false false b)
  | .listT et, .slice es =>
    (match fromStructList et es with
     | .ok vs => .ok (.list false false vs et)
     | .error e => .error e)
  | .mapT et, .smap kvs =>
    (match fromStructPairs et kvs with
     | .ok vs => .ok (.mapv false false vs et)
     | .error e => .error e)
  | .objectT ts, .strct fields =>
    (match fromStructAttrs ts fields with
     | .ok vs => .ok (.obj false false vs ts)
     | .error e => .error e)
  | .stringT, .unknownable u s =>
    .ok (if u then .str true false "" else .str false false s)
  | .stringT, .nullable n s =>
    .ok (if n then .str false true "" else .str false false s)
  | t, .attrValue v =>
    (match v.toTerraformValue with
     | .ok raw => valueFromTerraform t (newValue t.terraformType raw)
     | .error e => .error e)
  | _, _ => .error .typeMismatch

/-- Per-element encode of a native slice. -/
def fromStructList (et : AttrType) : List Native → Except ConvError (List AttrValue)
  | [] => .ok []
  | e :: rest =>
    match fromStruct et e with
    | .error err => .error err
    | .ok v =>
      match fromStructList et rest with
      | .error err => .error err
      | .ok vs => .ok (v :: vs)

/-- Per-element encode of a native string map. -/
def fromStructPairs (et : AttrType) : List (String × Native) → Except ConvError (List (String × AttrValue))
  | [] => .ok []
  | (k, e) :: rest =>
    match fromStruct et e with
    | .error err => .error err
    | .ok v =>
      match fromStructPairs et rest with
      | .error err => .error err
      | .ok vs => .ok ((k, v) :: vs)

/-- Per-field encode of a native struct: each tagged field is encoded with
the Type registered for its tag. -/
def fromStructAttrs : List (String × AttrType) → List (String × Native) → Except ConvError (List (String × AttrValue))
  | _, [] => .ok []
  | ts, (k, e) :: rest =>
    match ts.lookup k with
    | none => .error .typeMismatch
    | some kt =>
      match fromStruct kt e with
      | .error err => .error err
      | .ok v =>
        match fromStructAttrs ts rest with
        | .error err => .error err
        | .ok vs => .ok ((k, v) :: vs)
end

/-! ## Association-list helper lemmas -/

theorem lookup_eq_some_of_mem {β : Type} :
    ∀ (l : List (String × β)) (k : String) (v : β),
      (l.map Prod.fst).Nodup → (k, v) ∈ l → l.lookup k = some v := by
  intro l
  induction l with
  | nil => intro k v _ hm; cases hm
  | cons hd tl ih =>
    intro k v hnd hm
    obtain ⟨k', v'⟩ := hd
    simp only [List.map_cons, List.nodup_cons, List.mem_map] at hnd
    rcases List.mem_cons.mp hm with heq | htl
    · cases heq
      simp [List.lookup]
    · by_cases hk : k = k'
      · exfalso
        exact hnd.1 ⟨(k, v), htl, by simp [hk]⟩
      · have hbeq : (k == k') = false := by simp [hk]
        simpa [List.lookup, hbeq] using ih k v hnd.2 htl

theorem mem_of_lookup_eq_some {β : Type} :
    ∀ {l : List (String × β)} {k : String} {v : β},
      l.lookup k = some v → (k, v) ∈ l := by
  intro l
  induction l with
  | nil => intro k v h; simp [List.lookup] at h
  | cons hd tl ih =>
    intro k v h
    obtain ⟨k', v'⟩ := hd
    by_cases hk : k = k'
    · simp [List.lookup, hk] at h
      simp [hk, h]
    · have hbeq : (k == k') = false := by simp [hk]
      simp [List.lookup, hbeq] at h
      exact List.mem_cons_of_mem _ (ih h)

theorem lookup_isSome_of_mem_keys {β : Type} :
    ∀ {l : List (String × β)} {k : String},
      k ∈ l.map Prod.fst → ∃ v, l.lookup k = some v := by
  intro l
  induction l with
  | nil => intro k h; cases h
  | cons hd tl ih =>
    intro k h
    obtain ⟨k', v'⟩ := hd
    by_cases hk : k = k'
    · exact ⟨v', by simp [List.lookup, hk]⟩
    · simp only [List.map_cons, List.mem_cons] at h
      rcases h with h | h
      · exact absurd h hk
      · obtain ⟨v, hv⟩ := ih h
        have hbeq : (k == k') = false := by simp [hk]
        exact ⟨v, by simpa [List.lookup, hbeq] using hv⟩

theorem keys_mem_of_lookup_isSome {β : Type} :
    ∀ {l : List (String × β)} {k : String} {v : β},
      l.lookup k = some v → k ∈ l.map Prod.fst := by
  intro l k v h
  exact List.mem_map.mpr ⟨(k, v), mem_of_lookup_eq_some h, rfl⟩

/-! ## Claims -/

/-- C1 (amended): lowering a nested-attribute group to a plain Type builds
the Object Type from the group's children — for leaf-typed children its
entries are exactly the children's declared Types — and wraps it according
to nesting mode: Single yields that Object and List yields
List-of-that-Object, while both Set and Map nesting are unimplemented and
return the nil interface value, which is not a valid Type. -/
theorem claim_C1 :
    (∀ attrs, NestedAttributes.attributeType (.single attrs) = .objectT (loweredEntries attrs))
  ∧ (∀ attrs l m, NestedAttributes.attributeType (.listNested attrs l m)
      = .listT (.objectT (loweredEntries attrs)))
  ∧ (∀ attrs l m, NestedAttributes.attributeType (.setNested attrs l m) = .nilT)
  ∧ (∀ attrs l m, NestedAttributes.attributeType (.mapNested attrs l m) = .nilT)
  ∧ AttrType.wf .nilT = false
  ∧ (∀ ts : List (String × AttrType),
      loweredEntries (ts.map fun p => (p.1, Attribute.mk (some p.2) none)) = ts) := by
  refine ⟨?_, ?_, ?_, ?_, rfl, ?_⟩
  · intro attrs; simp [NestedAttributes.attributeType, nestedObjectType]
  · intro attrs l m; simp [NestedAttributes.attributeType, nestedObjectType]
  · intro attrs l m; simp [NestedAttributes.attributeType]
  · intro attrs l m; simp [NestedAttributes.attributeType]
  · intro ts
    induction ts with
    | nil => simp [loweredEntries]
    | cons hd tl ih => simp [loweredEntries, Attribute.entry, ih]

/-- C1 counterexample: the claim states Map nesting lowers to
Map-of-Object; in the source mapNestedAttributes.AttributeType returns the
nil interface value (an unimplemented lowering), not a Map Type. -/
theorem claim_C1_counterexample :
    NestedAttributes.attributeType (.mapNested [("a", .mk (some .stringT) none)] 0 0) = .nilT
  ∧ NestedAttributes.attributeType (.mapNested [("a", .mk (some .stringT) none)] 0 0)
      ≠ .mapT (.objectT [("a", .stringT)])
  ∧ AttrType.wf .nilT = false := by
  refine ⟨?_, ?_, rfl⟩
  · simp [NestedAttributes.attributeType]
  · simp [NestedAttributes.attributeType]

/-- C4 (amended): path stepping on Types is total and kind-checked, except
that ObjectType returns the result of a plain Go map index for
AttributeName — the registered Type, or the nil interface value with no
error when the name is absent; ListType accepts exactly ElementKeyInt and
MapType exactly ElementKeyString, each returning its single shared element
Type, and both reject every other step kind with a cannot-apply error, as
does ObjectType for every non-AttributeName step. -/
theorem claim_C4 :
    (∀ ts n, AttrType.applyStep (.objectT ts) (.attributeName n)
      = .ok ((ts.lookup n).getD .nilT))
  ∧ (∀ ts i, AttrType.applyStep (.objectT ts) (.elementKeyInt i)
      = .error (.cannotApply "ObjectType"))
  ∧ (∀ ts s, AttrType.applyStep (.objectT ts) (.elementKeyString s)
      = .error (.cannotApply "ObjectType"))
  ∧ (∀ ts v, AttrType.applyStep (.objectT ts) (.elementKeyValue v)
      = .error (.cannotApply "ObjectType"))
  ∧ (∀ e i, AttrType.applyStep (.listT e) (.elementKeyInt i) = .ok e)
  ∧ (∀ e n, AttrType.applyStep (.listT e) (.attributeName n)
      = .error (.cannotApply "ListType"))
  ∧ (∀ e s, AttrType.applyStep (.listT e) (.elementKeyString s)
      = .error (.cannotApply "ListType"))
  ∧ (∀ e v, AttrType.applyStep (.listT e) (.elementKeyValue v)
      = .error (.cannotApply "ListType"))
  ∧ (∀ e s, AttrType.applyStep (.mapT e) (.elementKeyString s) = .ok e)
  ∧ (∀ e n, AttrType.applyStep (.mapT e) (.attributeName n)
      = .error (.cannotApply "MapType"))
  ∧ (∀ e i, AttrType.applyStep (.mapT e) (.elementKeyInt i)
      = .error (.cannotApply "MapType"))
  ∧ (∀ e v, AttrType.applyStep (.mapT e) (.elementKeyValue v)
      = .error (.cannotApply "MapType")) := by
  refine ⟨?_, ?_, ?_, ?_, ?_, ?_, ?_, ?_, ?_, ?_, ?_, ?_⟩ <;>
    intro a b <;> rfl

/-- C4 counterexample: the claim states a missing attribute name yields a
not-found error; the source's ObjectType stepper returns the nil interface
value with a nil error instead. -/
theorem claim_C4_counterexample :
    AttrType.applyStep (.objectT [("a", .stringT)]) (.attributeName "b") = .ok .nilT := rfl

/-- C6: the reflection decode's exact-name-match check succeeds exactly
when the object's attribute-name set and the struct's tagged field-name set
coincide, and any asymmetry produces the single enumerating error — the
struct-only-side, object-only-side and both-sided messages being precisely
those asserted by struct_test.go. -/
theorem claim_C6 :
    (∀ objectAttrs structFields : List String,
      checkStructFields objectAttrs structFields = none
        ↔ (∀ n, n ∈ objectAttrs ↔ n ∈ structFields))
  ∧ checkStructFields [] ["a"] = some (.fieldMismatch
      "mismatch between struct and object: Struct defines fields not found in object: a.")
  ∧ checkStructFields ["a"] [] = some (.fieldMismatch
      "mismatch between struct and object: Object defines fields not found in struct: a.")
  ∧ checkStructFields ["b"] ["a"] = some (.fieldMismatch
      "mismatch between struct and object: Struct defines fields not found in object: a. Object defines fields not found in struct: b.") := by
  refine ⟨?_, rfl, rfl, rfl⟩
  intro O F
  have key :
      (((F.filter fun n => !(O.contains n)).isEmpty
          && (O.filter fun n => !(F.contains n)).isEmpty) = true)
        ↔ (∀ n, n ∈ O ↔ n ∈ F) := by
    simp only [Bool.and_eq_true, List.isEmpty_iff, List.filter_eq_nil_iff]
    constructor
    · rintro ⟨h1, h2⟩ n
      constructor
      · intro hn
        exact List.mem_of_elem_eq_true (by simpa using h2 n hn)
      · intro hn
        exact List.mem_of_elem_eq_true (by simpa using h1 n hn)
    · intro h
      refine ⟨fun a ha => ?_, fun a ha => ?_⟩
      · simpa using List.elem_eq_true_of_mem ((h a).mpr ha)
      · simpa using List.elem_eq_true_of_mem ((h a).mp ha)
  have unfolds :
      checkStructFields O F = none
        ↔ ((F.filter fun n => !(O.contains n)).isEmpty
            && (O.filter fun n => !(F.contains n)).isEmpty) = true := by
    by_cases hc :
        ((F.filter fun n => !(O.contains n)).isEmpty
          && (O.filter fun n => !(F.contains n)).isEmpty) = true
    · simp [checkStructFields, hc]
    · simp [checkStructFields, hc]
  rw [unfolds, key]

/-- C8: decoding an unknown (respectively null) wire value into a plain
native string field is governed solely by the matching option flag — with
the flag false it fails with the unhandled-unknown (unhandled-null) error,
and with the flag true the field receives the empty string — independently
of the other flag. -/
theorem claim_C8 :
    (∀ b, buildStringField ⟨b, false⟩ (.mk .string .unknown) = .error .unhandledUnknown)
  ∧ (∀ b, buildStringField ⟨b, true⟩ (.mk .string .unknown) = .ok "")
  ∧ (∀ b, buildStringField ⟨false, b⟩ (.mk .string .null) = .error .unhandledNull)
  ∧ (∀ b, buildStringField ⟨true, b⟩ (.mk .string .null) = .ok "") :=
  ⟨fun _ => rfl, fun _ => rfl, fun _ => rfl, fun _ => rfl⟩

/-- C10: Value.Equal compares the residual payload even when both operands
agree on being Null or Unknown — two Null (or two Unknown) Strings with
different residual Value fields are unequal (while identical ones are
equal), and two Null Lists carrying different residual Elems slices are
unequal. -/
theorem claim_C10 :
    AttrValue.equal (.str false true "a") (.str false true "b") = false
  ∧ AttrValue.equal (.str true false "a") (.str true false "b") = false
  ∧ AttrValue.equal (.str false true "a") (.str false true "a") = true
  ∧ AttrValue.equal (.list false true [.str false false "x"] .stringT)
      (.list false true [] .stringT) = false :=
  ⟨rfl, rfl, rfl, rfl⟩

/-- C2 (amended): the tri-state short-circuit of decoding happens before
any structural decomposition, but for container Types only after the wire
type of the incoming value has been checked against the Type's wire shape:
the primitive decoders return the Unknown/Null Value unconditionally, and
the List/Map/Object decoders do so whenever the declared wire type matches,
performing no structural validation on unknown or null values. -/
theorem claim_C2 :
    (∀ ty, stringValueFromTerraform (.mk ty .unknown) = .ok (.str true false ""))
  ∧ (∀ ty, stringValueFromTerraform (.mk ty .null) = .ok (.str false true ""))
  ∧ (∀ ty, numberValueFromTerraform (.mk ty .unknown) = .ok (.num true false none))
  ∧ (∀ ty, numberValueFromTerraform (.mk ty .null) = .ok (.num false true none))
  ∧ (∀ ty, boolValueFromTerraform (.mk ty .unknown) = .ok (.boolv true false false))
  ∧ (∀ ty, boolValueFromTerraform (.mk ty .null) = .ok (.boolv false true false))
  ∧ (∀ et ty, tfTypeEq ty (AttrType.terraformType (.listT et)) = true →
      valueFromTerraform (.listT et) (.mk ty .unknown) = .ok (.list true false [] et)
    ∧ valueFromTerraform (.listT et) (.mk ty .null) = .ok (.list false true [] et))
  ∧ (∀ et ty, tfTypeEq ty (AttrType.terraformType (.mapT et)) = true →
      valueFromTerraform (.mapT et) (.mk ty .unknown) = .ok (.mapv true false [] et)
    ∧ valueFromTerraform (.mapT et) (.mk ty .null) = .ok (.mapv false true [] et))
  ∧ (∀ ts ty, tfTypeEq ty (AttrType.terraformType (.objectT ts)) = true →
      valueFromTerraform (.objectT ts) (.mk ty .unknown) = .ok (.obj true false [] ts)
    ∧ valueFromTerraform (.objectT ts) (.mk ty .null) = .ok (.obj false true [] ts)) := by
  refine ⟨fun _ => rfl, fun _ => rfl, fun _ => rfl, fun _ => rfl, fun _ => rfl, fun _ => rfl,
    ?_, ?_, ?_⟩
  · intro et ty h
    exact ⟨by simp [valueFromTerraform, h], by simp [valueFromTerraform, h]⟩
  · intro et ty h
    have hmap : isMapTfType ty = true := by
      cases ty <;> simp_all [tfTypeEq, isMapTfType, AttrType.terraformType]
    exact ⟨by simp [valueFromTerraform, h, hmap], by simp [valueFromTerraform, h, hmap]⟩
  · intro ts ty h
    exact ⟨by simp [valueFromTerraform, h], by simp [valueFromTerraform, h]⟩

/-- C2 witness: the container short-circuit applied at a matching concrete
wire type. -/
theorem claim_C2_witness :
    tfTypeEq (.list .string) (AttrType.terraformType (.listT .stringT)) = true
  ∧ valueFromTerraform (.listT .stringT) (.mk (.list .string) .unknown)
      = .ok (.list true false [] .stringT) :=
  ⟨rfl, (claim_C2.2.2.2.2.2.2.1 .stringT (.list .string) rfl).1⟩

/-- C2 counterexample: the claim states an unknown wire value never draws a
shape-mismatch error regardless of its declared wire type; ListType's
decoder checks the wire type first and rejects an unknown wire value whose
declared type is tftypes.String. -/
theorem claim_C2_counterexample :
    valueFromTerraform (.listT .stringT) (.mk .string .unknown) = .error .typeMismatch := rfl

/-- C7: Schema.AttributeAtPath distinguishes the two path-failure modes —
a walk that ends on a plain Type (inside a leaf-typed attribute's
interior) yields the distinct inside-atomic-attribute error, a walk that
fails on a missing top-level name yields a wrapped not-found error, and in
particular the path a.b against the schema with the single String
attribute a yields the inside-atomic-attribute error, not a not-found
error. -/
theorem claim_C7 :
    (∀ (s : Schema) (path : List PathStep) (rem : List PathStep) (t : AttrType),
      walkAttributePath (.schemaNode s) path = (.typeNode t, rem, none) →
      s.attributeAtPath path = .error .insideAtomicAttribute)
  ∧ (∀ (s : Schema) (n : String), s.attributes.lookup n = none →
      s.attributeAtPath [.attributeName n]
        = .error (.walkError [.attributeName n] (.schemaNotFound n)))
  ∧ Schema.attributeAtPath ⟨[("a", .mk (some .stringT) none)], 0, "", "", ""⟩
      [.attributeName "a", .attributeName "b"] = .error .insideAtomicAttribute := by
  refine ⟨?_, ?_, rfl⟩
  · intro s path rem t h
    simp [Schema.attributeAtPath, h]
  · intro s n h
    simp [Schema.attributeAtPath, walkAttributePath, WalkNode.applyStep, Schema.applyStep, h]

/-- C7 witness: both failure modes exercised at concrete schemas and
paths. -/
theorem claim_C7_witness :
    walkAttributePath (.schemaNode ⟨[("a", .mk (some .stringT) none)], 0, "", "", ""⟩)
      [.attributeName "a", .attributeName "b"] = (.typeNode .stringT, [], none)
  ∧ Schema.attributeAtPath ⟨[("a", .mk (some .stringT) none)], 0, "", "", ""⟩
      [.attributeName "a", .attributeName "b"] = .error .insideAtomicAttribute
  ∧ (Schema.mk [("a", .mk (some .stringT) none)] 0 "" "" "").attributes.lookup "z" = none
  ∧ Schema.attributeAtPath ⟨[("a", .mk (some .stringT) none)], 0, "", "", ""⟩
      [.attributeName "z"]
      = .error (.walkError [.attributeName "z"] (.schemaNotFound "z")) :=
  ⟨rfl,
   claim_C7.1 _ [.attributeName "a", .attributeName "b"] [] .stringT rfl,
   rfl,
   claim_C7.2.1 _ "z" rfl⟩



theorem decode_exclusive_aux : ∀ n : Nat,
    (∀ t v w, sizeOf v ≤ n → valueFromTerraform t v = .ok w → w.exclusive = true)
  ∧ (∀ et vs ws, sizeOf vs ≤ n → elemsFromTerraform et vs = .ok ws →
      AttrValue.exclusiveList ws = true)
  ∧ (∀ et kvs ws, sizeOf kvs ≤ n → mapElemsFromTerraform et kvs = .ok ws →
      AttrValue.exclusivePairs ws = true)
  ∧ (∀ ts kvs ws, sizeOf kvs ≤ n → objAttrsFromTerraform ts kvs = .ok ws →
      AttrValue.exclusivePairs ws = true) := by
  intro n
  induction n using Nat.strong_induction_on with
  | _ n ih =>
    refine ⟨?_, ?_, ?_, ?_⟩
    · intro t v w hle h
      rcases v with ⟨ty, c⟩
      cases t with
      | stringT =>
        cases c <;> simp [valueFromTerraform, stringValueFromTerraform,
          TfValue.isKnown, TfValue.isNull, TfValue.content] at h <;> subst h <;> rfl
      | numberT =>
        cases c <;> simp [valueFromTerraform, numberValueFromTerraform,
          TfValue.isKnown, TfValue.isNull, TfValue.content] at h <;> subst h <;> rfl
      | boolT =>
        cases c <;> simp [valueFromTerraform, boolValueFromTerraform,
          TfValue.isKnown, TfValue.isNull, TfValue.content] at h <;> subst h <;> rfl
      | nilT => simp [valueFromTerraform] at h
      | listT et =>
        cases htype : tfTypeEq ty (AttrType.terraformType (.listT et)) with
        | false => cases c <;> simp [valueFromTerraform, htype] at h
        | true =>
          cases c with
          | unknown => simp [valueFromTerraform, htype] at h; subst h; rfl
          | null => simp [valueFromTerraform, htype] at h; subst h; rfl
          | coll vs =>
            simp only [valueFromTerraform, htype] at h
            cases helems : elemsFromTerraform et vs with
            | error e => rw [helems] at h; simp at h
            | ok elems =>
              rw [helems] at h
              simp at h
              have hlt : sizeOf vs < n := by
                have hsz : sizeOf vs < sizeOf (TfValue.mk ty (.coll vs)) := by
                  simp <;> omega
                omega
              have hex := (ih (sizeOf vs) hlt).2.1 et vs elems le_rfl helems
              rw [← h]
              simp [AttrValue.exclusive, hex]
          | str s => simp [valueFromTerraform, htype] at h
          | num q => simp [valueFromTerraform, htype] at h
          | numNil => simp [valueFromTerraform, htype] at h
          | boolv b => simp [valueFromTerraform, htype] at h
          | mapc kvs => simp [valueFromTerraform, htype] at h
      | mapT et =>
        cases hmap : isMapTfType ty with
        | false => cases c <;> simp [valueFromTerraform, hmap] at h
        | true =>
          cases htype : tfTypeEq ty (AttrType.terraformType (.mapT et)) with
          | false => cases c <;> simp [valueFromTerraform, hmap, htype] at h
          | true =>
            cases c with
            | unknown => simp [valueFromTerraform, hmap, htype] at h; subst h; rfl
            | null => simp [valueFromTerraform, hmap, htype] at h; subst h; rfl
            | mapc kvs =>
              simp only [valueFromTerraform, hmap, htype] at h
              cases helems : mapElemsFromTerraform et kvs with
              | error e => rw [helems] at h; simp at h
              | ok elems =>
                rw [helems] at h
                simp at h
                have hlt : sizeOf kvs < n := by
                  have hsz : sizeOf kvs < sizeOf (TfValue.mk ty (.mapc kvs)) := by
                    simp <;> omega
                  omega
                have hex := (ih (sizeOf kvs) hlt).2.2.1 et kvs elems le_rfl helems
                rw [← h]
                simp [AttrValue.exclusive, hex]
            | str s => simp [valueFromTerraform, hmap, htype] at h
            | num q => simp [valueFromTerraform, hmap, htype] at h
            | numNil => simp [valueFromTerraform, hmap, htype] at h
            | boolv b => simp [valueFromTerraform, hmap, htype] at h
            | coll vs => simp [valueFromTerraform, hmap, htype] at h
      | objectT ts =>
        cases htype : tfTypeEq ty (AttrType.terraformType (.objectT ts)) with
        | false => cases c <;> simp [valueFromTerraform, htype] at h
        | true =>
          cases c with
          | unknown => simp [valueFromTerraform, htype] at h; subst h; rfl
          | null => simp [valueFromTerraform, htype] at h; subst h; rfl
          | mapc kvs =>
            simp only [valueFromTerraform, htype] at h
            cases helems : objAttrsFromTerraform ts kvs with
            | error e => rw [helems] at h; simp at h
            | ok attrs =>
              rw [helems] at h
              simp at h
              have hlt : sizeOf kvs < n := by
                have hsz : sizeOf kvs < sizeOf (TfValue.mk ty (.mapc kvs)) := by
                  simp <;> omega
                omega
              have hex := (ih (sizeOf kvs) hlt).2.2.2 ts kvs attrs le_rfl helems
              rw [← h]
              simp [AttrValue.exclusive, hex]
          | str s => simp [valueFromTerraform, htype] at h
          | num q => simp [valueFromTerraform, htype] at h
          | numNil => simp [valueFromTerraform, htype] at h
          | boolv b => simp [valueFromTerraform, htype] at h
          | coll vs => simp [valueFromTerraform, htype] at h
    · intro et vs ws hle h
      cases vs with
      | nil => simp [elemsFromTerraform] at h; subst h; rfl
      | cons v rest =>
        simp only [elemsFromTerraform] at h
        cases hv : valueFromTerraform et v with
        | error e => rw [hv] at h; simp at h
        | ok av =>
          rw [hv] at h
          cases hrest : elemsFromTerraform et rest with
          | error e => rw [hrest] at h; simp at h
          | ok avs =>
            rw [hrest] at h
            simp at h
            have hlt1 : sizeOf v < n := by
              have hsz : sizeOf v < sizeOf (v :: rest) := by simp <;> omega
              omega
            have hlt2 : sizeOf rest < n := by
              have hsz : sizeOf rest < sizeOf (v :: rest) := by simp <;> omega
              omega
            have h1 := (ih (sizeOf v) hlt1).1 et v av le_rfl hv
            have h2 := (ih (sizeOf rest) hlt2).2.1 et rest avs le_rfl hrest
            rw [← h]
            simp [AttrValue.exclusiveList, h1, h2]
    · intro et kvs ws hle h
      cases kvs with
      | nil => simp [mapElemsFromTerraform] at h; subst h; rfl
      | cons kv rest =>
        obtain ⟨k, v⟩ := kv
        simp only [mapElemsFromTerraform] at h
        cases hv : valueFromTerraform et v with
        | error e => rw [hv] at h; simp at h
        | ok av =>
          rw [hv] at h
          cases hrest : mapElemsFromTerraform et rest with
          | error e => rw [hrest] at h; simp at h
          | ok avs =>
            rw [hrest] at h
            simp at h
            have hlt1 : sizeOf v < n := by
              have hsz : sizeOf v < sizeOf ((k, v) :: rest) := by simp <;> omega
              omega
            have hlt2 : sizeOf rest < n := by
              have hsz : sizeOf rest < sizeOf ((k, v) :: rest) := by simp <;> omega
              omega
            have h1 := (ih (sizeOf v) hlt1).1 et v av le_rfl hv
            have h2 := (ih (sizeOf rest) hlt2).2.2.1 et rest avs le_rfl hrest
            rw [← h]
            simp [AttrValue.exclusivePairs, h1, h2]
    · intro ts kvs ws hle h
      cases kvs with
      | nil => simp [objAttrsFromTerraform] at h; subst h; rfl
      | cons kv rest =>
        obtain ⟨k, v⟩ := kv
        simp only [objAttrsFromTerraform] at h
        cases hkt : ts.lookup k with
        | none => rw [hkt] at h; simp at h
        | some kt =>
          simp only [hkt] at h
          cases hv : valueFromTerraform kt v with
          | error e => rw [hv] at h; simp at h
          | ok av =>
            rw [hv] at h
            cases hrest : objAttrsFromTerraform ts rest with
            | error e => rw [hrest] at h; simp at h
            | ok avs =>
              rw [hrest] at h
              simp at h
              have hlt1 : sizeOf v < n := by
                have hsz : sizeOf v < sizeOf ((k, v) :: rest) := by simp <;> omega
                omega
              have hlt2 : sizeOf rest < n := by
                have hsz : sizeOf rest < sizeOf ((k, v) :: rest) := by simp <;> omega
                omega
              have h1 := (ih (sizeOf v) hlt1).1 kt v av le_rfl hv
              have h2 := (ih (sizeOf rest) hlt2).2.2.2 ts rest avs le_rfl hrest
              rw [← h]
              simp [AttrValue.exclusivePairs, h1, h2]



theorem decode_exclusive {t : AttrType} {v : TfValue} {w : AttrValue}
    (h : valueFromTerraform t v = .ok w) : w.exclusive = true :=
  (decode_exclusive_aux (sizeOf v)).1 t v w le_rfl h

theorem fromStruct_exclusive_aux : ∀ n : Nat,
    (∀ t x v, sizeOf x ≤ n → fromStruct t x = .ok v → v.exclusive = true)
  ∧ (∀ et xs vs, sizeOf xs ≤ n → fromStructList et xs = .ok vs →
      AttrValue.exclusiveList vs = true)
  ∧ (∀ et xs vs, sizeOf xs ≤ n → fromStructPairs et xs = .ok vs →
      AttrValue.exclusivePairs vs = true)
  ∧ (∀ ts xs vs, sizeOf xs ≤ n → fromStructAttrs ts xs = .ok vs →
      AttrValue.exclusivePairs vs = true) := by
  intro n
  induction n using Nat.strong_induction_on with
  | _ n ih =>
    have attrCase : ∀ (t : AttrType) (av : AttrValue) (v : AttrValue),
        fromStruct t (.attrValue av) = .ok v → v.exclusive = true := by
      intro t av v h
      have harm : fromStruct t (.attrValue av)
          = (match av.toTerraformValue with
             | .ok raw => valueFromTerraform t (newValue t.terraformType raw)
             | .error e => .error e) := by
        cases t <;> rfl
      rw [harm] at h
      cases henc : av.toTerraformValue with
      | error e => rw [henc] at h; simp at h
      | ok raw =>
        rw [henc] at h
        exact decode_exclusive h
    refine ⟨?_, ?_, ?_, ?_⟩
    · intro t x v hle h
      cases t with
      | stringT =>
        cases x with
        | str s => simp [fromStruct] at h; subst h; rfl
        | unknownable u s =>
          simp [fromStruct] at h
          cases u <;> simp at h <;> subst h <;> rfl
        | nullable nn s =>
          simp [fromStruct] at h
          cases nn <;> simp at h <;> subst h <;> rfl
        | attrValue av => exact attrCase _ av v h
        | _ => simp [fromStruct] at h
      | numberT =>
        cases x with
        | intv i => simp [fromStruct] at h; subst h; rfl
        | floatv q => simp [fromStruct] at h; subst h; rfl
        | attrValue av => exact attrCase _ av v h
        | _ => simp [fromStruct] at h
      | boolT =>
        cases x with
        | boolv b => simp [fromStruct] at h; subst h; rfl
        | attrValue av => exact attrCase _ av v h
        | _ => simp [fromStruct] at h
      | nilT =>
        cases x with
        | attrValue av => exact attrCase _ av v h
        | _ => simp [fromStruct] at h
      | listT et =>
        cases x with
        | slice es =>
          simp only [fromStruct] at h
          cases hes : fromStructList et es with
          | error e => rw [hes] at h; simp at h
          | ok vs =>
            rw [hes] at h
            simp at h
            have hlt : sizeOf es < n := by
              have hsz : sizeOf es < sizeOf (Native.slice es) := by simp <;> omega
              omega
            have hex := (ih (sizeOf es) hlt).2.1 et es vs le_rfl hes
            rw [← h]
            simp [AttrValue.exclusive, hex]
        | attrValue av => exact attrCase _ av v h
        | _ => simp [fromStruct] at h
      | mapT et =>
        cases x with
        | smap kvs =>
          simp only [fromStruct] at h
          cases hes : fromStructPairs et kvs with
          | error e => rw [hes] at h; simp at h
          | ok vs =>
            rw [hes] at h
            simp at h
            have hlt : sizeOf kvs < n := by
              have hsz : sizeOf kvs < sizeOf (Native.smap kvs) := by simp <;> omega
              omega
            have hex := (ih (sizeOf kvs) hlt).2.2.1 et kvs vs le_rfl hes
            rw [← h]
            simp [AttrValue.exclusive, hex]
        | attrValue av => exact attrCase _ av v h
        | _ => simp [fromStruct] at h
      | objectT ts =>
        cases x with
        | strct fields =>
          simp only [fromStruct] at h
          cases hes : fromStructAttrs ts fields with
          | error e => rw [hes] at h; simp at h
          | ok vs =>
            rw [hes] at h
            simp at h
            have hlt : sizeOf fields < n := by
              have hsz : sizeOf fields < sizeOf (Native.strct fields) := by simp <;> omega
              omega
            have hex := (ih (sizeOf fields) hlt).2.2.2 ts fields vs le_rfl hes
            rw [← h]
            simp [AttrValue.exclusive, hex]
        | attrValue av => exact attrCase _ av v h
        | _ => simp [fromStruct] at h
    · intro et xs vs hle h
      cases xs with
      | nil => simp [fromStructList] at h; subst h; rfl
      | cons x rest =>
        simp only [fromStructList] at h
        cases hx : fromStruct et x with
        | error e => rw [hx] at h; simp at h
        | ok v =>
          rw [hx] at h
          cases hrest : fromStructList et rest with
          | error e => rw [hrest] at h; simp at h
          | ok rest' =>
            rw [hrest] at h
            simp at h
            have hlt1 : sizeOf x < n := by
              have hsz : sizeOf x < sizeOf (x :: rest) := by simp <;> omega
              omega
            have hlt2 : sizeOf rest < n := by
              have hsz : sizeOf rest < sizeOf (x :: rest) := by simp <;> omega
              omega
            have h1 := (ih (sizeOf x) hlt1).1 et x v le_rfl hx
            have h2 := (ih (sizeOf rest) hlt2).2.1 et rest rest' le_rfl hrest
            rw [← h]
            simp [AttrValue.exclusiveList, h1, h2]
    · intro et xs vs hle h
      cases xs with
      | nil => simp [fromStructPairs] at h; subst h; rfl
      | cons kx rest =>
        obtain ⟨k, x⟩ := kx
        simp only [fromStructPairs] at h
        cases hx : fromStruct et x with
        | error e => rw [hx] at h; simp at h
        | ok v =>
          rw [hx] at h
          cases hrest : fromStructPairs et rest with
          | error e => rw [hrest] at h; simp at h
          | ok rest' =>
            rw [hrest] at h
            simp at h
            have hlt1 : sizeOf x < n := by
              have hsz : sizeOf x < sizeOf ((k, x) :: rest) := by simp <;> omega
              omega
            have hlt2 : sizeOf rest < n := by
              have hsz : sizeOf rest < sizeOf ((k, x) :: rest) := by simp <;> omega
              omega
            have h1 := (ih (sizeOf x) hlt1).1 et x v le_rfl hx
            have h2 := (ih (sizeOf rest) hlt2).2.2.1 et rest rest' le_rfl hrest
            rw [← h]
            simp [AttrValue.exclusivePairs, h1, h2]
    · intro ts xs vs hle h
      cases xs with
      | nil => simp [fromStructAttrs] at h; subst h; rfl
      | cons kx rest =>
        obtain ⟨k, x⟩ := kx
        simp only [fromStructAttrs] at h
        cases hkt : ts.lookup k with
        | none => rw [hkt] at h; simp at h
        | some kt =>
          simp only [hkt] at h
          cases hx : fromStruct kt x with
          | error e => rw [hx] at h; simp at h
          | ok v =>
            rw [hx] at h
            cases hrest : fromStructAttrs ts rest with
            | error e => rw [hrest] at h; simp at h
            | ok rest' =>
              rw [hrest] at h
              simp at h
              have hlt1 : sizeOf x < n := by
                have hsz : sizeOf x < sizeOf ((k, x) :: rest) := by simp <;> omega
                omega
              have hlt2 : sizeOf rest < n := by
                have hsz : sizeOf rest < sizeOf ((k, x) :: rest) := by simp <;> omega
                omega
              have h1 := (ih (sizeOf x) hlt1).1 kt x v le_rfl hx
              have h2 := (ih (sizeOf rest) hlt2).2.2.2 ts rest rest' le_rfl hrest
              rw [← h]
              simp [AttrValue.exclusivePairs, h1, h2]

/-- C9: tri-state exclusivity is an invariant of every Value the core
produces — for every Value returned by any ValueFromTerraform decode or by
the reflection engine's encode (FromStruct), the Unknown and Null flags
are never both set and the residual payload is populated only when both
flags are false, recursively through containers. -/
theorem claim_C9 :
    (∀ (t : AttrType) (v : TfValue) (w : AttrValue),
      valueFromTerraform t v = .ok w → w.exclusive = true)
  ∧ (∀ (t : AttrType) (x : Native) (v : AttrValue),
      fromStruct t x = .ok v → v.exclusive = true) :=
  ⟨fun t v w h => (decode_exclusive_aux (sizeOf v)).1 t v w le_rfl h,
   fun t x v h => (fromStruct_exclusive_aux (sizeOf x)).1 t x v le_rfl h⟩

/-- C9 witness: exclusivity of concrete decoded and encoded values. -/
theorem claim_C9_witness :
    valueFromTerraform .stringT (.mk .string .unknown) = .ok (.str true false "")
  ∧ AttrValue.exclusive (.str true false "") = true
  ∧ fromStruct (.listT .stringT) (.slice [.str "x"])
      = .ok (.list false false [.str false false "x"] .stringT)
  ∧ AttrValue.exclusive (.list false false [.str false false "x"] .stringT) = true :=
  ⟨rfl, claim_C9.1 .stringT (.mk .string .unknown) (.str true false "") rfl,
   rfl, claim_C9.2 (.listT .stringT) (.slice [.str "x"])
     (.list false false [.str false false "x"] .stringT) rfl⟩





theorem beq_nilT_eq_false_of_wf : ∀ t : AttrType, t.wf = true → t.beq .nilT = false := by
  intro t h
  cases t <;> simp_all [AttrType.beq, AttrType.wf]

theorem wf_of_mem_wfFields :
    ∀ {ts : List (String × AttrType)} {k : String} {v : AttrType},
      AttrType.wfFields ts = true → (k, v) ∈ ts → v.wf = true := by
  intro ts
  induction ts with
  | nil => intro k v _ hm; cases hm
  | cons hd tl ih =>
    intro k v hwf hm
    obtain ⟨k', v'⟩ := hd
    simp only [AttrType.wfFields, Bool.and_eq_true] at hwf
    rcases List.mem_cons.mp hm with heq | htl
    · cases heq; exact hwf.1
    · exact ih hwf.2 htl

theorem sizeOf_snd_lt_of_mem :
    ∀ {ts : List (String × AttrType)} {k : String} {v : AttrType},
      (k, v) ∈ ts → sizeOf v < sizeOf ts := by
  intro ts k v hm
  have h1 : sizeOf (k, v) < sizeOf ts := List.sizeOf_lt_of_mem hm
  have h2 : sizeOf (k, v) = 1 + sizeOf k + sizeOf v := rfl
  omega

theorem equal_refl_aux : ∀ n : Nat, ∀ t : AttrType,
    sizeOf t ≤ n → t.wf = true → t.equal t = true := by
  intro n
  induction n using Nat.strong_induction_on with
  | _ n ih =>
    intro t hle hwf
    cases t with
    | stringT => rfl
    | boolT => rfl
    | numberT => rfl
    | nilT => simp [AttrType.wf] at hwf
    | listT e =>
      simp only [AttrType.wf] at hwf
      have hlt : sizeOf e < n := by
        have : sizeOf e < sizeOf (AttrType.listT e) := by simp <;> omega
        omega
      simp [AttrType.equal, beq_nilT_eq_false_of_wf e hwf,
        ih (sizeOf e) hlt e le_rfl hwf]
    | mapT e =>
      simp only [AttrType.wf] at hwf
      have hlt : sizeOf e < n := by
        have : sizeOf e < sizeOf (AttrType.mapT e) := by simp <;> omega
        omega
      simp [AttrType.equal, beq_nilT_eq_false_of_wf e hwf,
        ih (sizeOf e) hlt e le_rfl hwf]
    | objectT ts =>
      simp only [AttrType.wf, Bool.and_eq_true, decide_eq_true_eq] at hwf
      obtain ⟨hnd, hwfF⟩ := hwf
      have inner : ∀ rest : List (String × AttrType),
          (∀ p ∈ rest, p ∈ ts) → AttrType.equalFields rest ts = true := by
        intro rest
        induction rest with
        | nil => intro _; rfl
        | cons p tail ihr =>
          intro hsub
          obtain ⟨k, v⟩ := p
          have hmem : (k, v) ∈ ts := hsub _ (List.mem_cons_self _ _)
          have hlook := lookup_eq_some_of_mem ts k v hnd hmem
          have hvwf : v.wf = true := wf_of_mem_wfFields hwfF hmem
          have hvlt : sizeOf v < n := by
            have h1 : sizeOf v < sizeOf ts := sizeOf_snd_lt_of_mem hmem
            have h2 : sizeOf ts < sizeOf (AttrType.objectT ts) := by simp <;> omega
            omega
          have hveq : v.equal v = true := ih (sizeOf v) hvlt v le_rfl hvwf
          simp only [AttrType.equalFields, hlook, hveq, Bool.true_and]
          exact ihr fun p hp => hsub _ (List.mem_cons_of_mem _ hp)
      simp only [AttrType.equal, beq_self_eq_true, Bool.true_and]
      exact inner ts fun p hp => hp

theorem equalFields_mem_iff :
    ∀ (A B : List (String × AttrType)),
      AttrType.equalFields A B = true
        ↔ ∀ p ∈ A, ∃ v', B.lookup p.1 = some v' ∧ AttrType.equal p.2 v' = true := by
  intro A B
  induction A with
  | nil => simp [AttrType.equalFields]
  | cons hd tl ih =>
    obtain ⟨k, v⟩ := hd
    simp only [AttrType.equalFields, Bool.and_eq_true, ih]
    constructor
    · rintro ⟨h1, h2⟩ p hp
      rcases List.mem_cons.mp hp with heq | htl
      · subst heq
        cases hlook : B.lookup k with
        | none => rw [hlook] at h1; cases h1
        | some v' =>
          rw [hlook] at h1
          exact ⟨v', rfl, h1⟩
      · exact h2 p htl
    · intro h
      constructor
      · obtain ⟨v', hl, he⟩ := h (k, v) (List.mem_cons_self _ _)
        rw [hl]
        exact he
      · intro p hp
        exact h p (List.mem_cons_of_mem _ hp)

theorem keys_eq_of_subset_of_len :
    ∀ (A B : List (String × AttrType)),
      (A.map Prod.fst).Nodup → (B.map Prod.fst).Nodup →
      A.length = B.length →
      (∀ k, k ∈ A.map Prod.fst → k ∈ B.map Prod.fst) →
      ∀ k, k ∈ B.map Prod.fst → k ∈ A.map Prod.fst := by
  intro A B hndA hndB hlen hsub k hk
  have hsubF : (A.map Prod.fst).toFinset ⊆ (B.map Prod.fst).toFinset := by
    intro x hx
    exact List.mem_toFinset.mpr (hsub x (List.mem_toFinset.mp hx))
  have hcardA : (A.map Prod.fst).toFinset.card = A.length := by
    rw [List.toFinset_card_of_nodup hndA, List.length_map]
  have hcardB : (B.map Prod.fst).toFinset.card = B.length := by
    rw [List.toFinset_card_of_nodup hndB, List.length_map]
  have heq : (A.map Prod.fst).toFinset = (B.map Prod.fst).toFinset := by
    apply Finset.eq_of_subset_of_card_le hsubF
    omega
  exact List.mem_toFinset.mp (heq ▸ List.mem_toFinset.mpr hk)

theorem equal_symm_aux : ∀ n : Nat, ∀ t1 t2 : AttrType,
    sizeOf t1 + sizeOf t2 ≤ n → t1.wf = true → t2.wf = true →
    t1.equal t2 = t2.equal t1 := by
  intro n
  induction n using Nat.strong_induction_on with
  | _ n ih =>
    intro t1 t2 hle hwf1 hwf2
    cases t1 with
    | stringT => cases t2 <;> simp [AttrType.equal]
    | boolT => cases t2 <;> simp [AttrType.equal]
    | numberT => cases t2 <;> simp [AttrType.equal]
    | nilT => simp [AttrType.wf] at hwf1
    | listT e1 =>
      cases t2 with
      | listT e2 =>
        simp only [AttrType.wf] at hwf1 hwf2
        have hlt : sizeOf e1 + sizeOf e2 < n := by
          have a1 : sizeOf e1 < sizeOf (AttrType.listT e1) := by simp <;> omega
          have a2 : sizeOf e2 < sizeOf (AttrType.listT e2) := by simp <;> omega
          omega
        simp [AttrType.equal, beq_nilT_eq_false_of_wf e1 hwf1,
          beq_nilT_eq_false_of_wf e2 hwf2,
          ih (sizeOf e1 + sizeOf e2) hlt e1 e2 le_rfl hwf1 hwf2]
      | nilT => simp [AttrType.wf] at hwf2
      | stringT => simp [AttrType.equal]
      | boolT => simp [AttrType.equal]
      | numberT => simp [AttrType.equal]
      | mapT e2 => simp [AttrType.equal]
      | objectT ts2 => simp [AttrType.equal]
    | mapT e1 =>
      cases t2 with
      | mapT e2 =>
        simp only [AttrType.wf] at hwf1 hwf2
        have hlt : sizeOf e1 + sizeOf e2 < n := by
          have a1 : sizeOf e1 < sizeOf (AttrType.mapT e1) := by simp <;> omega
          have a2 : sizeOf e2 < sizeOf (AttrType.mapT e2) := by simp <;> omega
          omega
        simp [AttrType.equal, beq_nilT_eq_false_of_wf e1 hwf1,
          beq_nilT_eq_false_of_wf e2 hwf2,
          ih (sizeOf e1 + sizeOf e2) hlt e1 e2 le_rfl hwf1 hwf2]
      | nilT => simp [AttrType.wf] at hwf2
      | stringT => simp [AttrType.equal]
      | boolT => simp [AttrType.equal]
      | numberT => simp [AttrType.equal]
      | listT e2 => simp [AttrType.equal]
      | objectT ts2 => simp [AttrType.equal]
    | objectT ts1 =>
      cases t2 with
      | objectT ts2 =>
        simp only [AttrType.wf, Bool.and_eq_true, decide_eq_true_eq] at hwf1 hwf2
        obtain ⟨hnd1, hwfF1⟩ := hwf1
        obtain ⟨hnd2, hwfF2⟩ := hwf2
        by_cases hlen : ts1.length = ts2.length
        · have hdir : ∀ (A B : List (String × AttrType)),
              (A.map Prod.fst).Nodup → (B.map Prod.fst).Nodup →
              A.length = B.length →
              AttrType.wfFields A = true → AttrType.wfFields B = true →
              sizeOf (AttrType.objectT A) + sizeOf (AttrType.objectT B) ≤ n →
              AttrType.equalFields A B = true → AttrType.equalFields B A = true := by
            intro A B hndA hndB hlAB hwA hwB hsz hAB
            rw [equalFields_mem_iff] at hAB ⊢
            have hkeysub : ∀ k, k ∈ A.map Prod.fst → k ∈ B.map Prod.fst := by
              intro k hk
              obtain ⟨p, hp, hfst⟩ := List.mem_map.mp hk
              obtain ⟨v', hl, _⟩ := hAB p hp
              subst hfst
              exact keys_mem_of_lookup_isSome hl
            have hkeysup := keys_eq_of_subset_of_len A B hndA hndB hlAB hkeysub
            intro p hp
            obtain ⟨k, w⟩ := p
            have hkA : k ∈ A.map Prod.fst :=
              hkeysup k (List.mem_map.mpr ⟨(k, w), hp, rfl⟩)
            obtain ⟨v, hvA⟩ := lookup_isSome_of_mem_keys hkA
            have hvmem : (k, v) ∈ A := mem_of_lookup_eq_some hvA
            obtain ⟨v', hv', hveq⟩ := hAB (k, v) hvmem
            have hlookB : B.lookup k = some w := lookup_eq_some_of_mem B k w hndB hp
            rw [hlookB] at hv'
            cases hv'
            refine ⟨v, hvA, ?_⟩
            have hvwf : v.wf = true := wf_of_mem_wfFields hwA hvmem
            have hwwf : w.wf = true := wf_of_mem_wfFields hwB hp
            have hlt : sizeOf v + sizeOf w < n := by
              have b1 : sizeOf v < sizeOf A := sizeOf_snd_lt_of_mem hvmem
              have b2 : sizeOf w < sizeOf B := sizeOf_snd_lt_of_mem hp
              have c1 : sizeOf A < sizeOf (AttrType.objectT A) := by simp <;> omega
              have c2 : sizeOf B < sizeOf (AttrType.objectT B) := by simp <;> omega
              omega
            rw [← ih (sizeOf v + sizeOf w) hlt v w le_rfl hvwf hwwf]
            exact hveq
          have h21 : (ts2.length == ts1.length) = true := by simp [hlen]
          have h12 : (ts1.length == ts2.length) = true := by simp [hlen]
          simp only [AttrType.equal, h21, h12, Bool.true_and]
          cases hf : AttrType.equalFields ts1 ts2 with
          | true =>
            rw [hdir ts1 ts2 hnd1 hnd2 hlen hwfF1 hwfF2 hle hf]
          | false =>
            cases hg : AttrType.equalFields ts2 ts1 with
            | true =>
              have := hdir ts2 ts1 hnd2 hnd1 hlen.symm hwfF2 hwfF1 (by omega) hg
              rw [this] at hf
              cases hf
            | false => rfl
        · have h21 : (ts2.length == ts1.length) = false := by
            simp [Ne.symm hlen]
          have h12 : (ts1.length == ts2.length) = false := by simp [hlen]
          simp [AttrType.equal, h21, h12]
      | nilT => simp [AttrType.wf] at hwf2
      | stringT => simp [AttrType.equal]
      | boolT => simp [AttrType.equal]
      | numberT => simp [AttrType.equal]
      | listT e2 =>
        simp only [AttrType.wf] at hwf2
        simp [AttrType.equal, beq_nilT_eq_false_of_wf e2 hwf2]
      | mapT e2 =>
        simp only [AttrType.wf] at hwf2
        simp [AttrType.equal, beq_nilT_eq_false_of_wf e2 hwf2]



theorem equal_perm_object :
    ∀ (ts ts' : List (String × AttrType)),
      (AttrType.objectT ts).wf = true → ts.Perm ts' →
      (AttrType.objectT ts).equal (.objectT ts') = true := by
  intro ts ts' hwf hperm
  simp only [AttrType.wf, Bool.and_eq_true, decide_eq_true_eq] at hwf
  obtain ⟨hnd, hwfF⟩ := hwf
  have hnd' : (ts'.map Prod.fst).Nodup := ((hperm.map Prod.fst).nodup_iff).mp hnd
  have hlen : (ts'.length == ts.length) = true := by simp [hperm.length_eq]
  simp only [AttrType.equal, hlen, Bool.true_and]
  rw [equalFields_mem_iff]
  intro p hp
  obtain ⟨k, v⟩ := p
  have hmem' : (k, v) ∈ ts' := hperm.subset hp
  have hlook := lookup_eq_some_of_mem ts' k v hnd' hmem'
  have hvwf := wf_of_mem_wfFields hwfF hp
  exact ⟨v, hlook, equal_refl_aux (sizeOf v) v le_rfl hvwf⟩

/-- C5: on Types built from the six variants (well-formed, without nil
interface values), Equal is reflexive and symmetric, recurses structurally
through List and Map element types, is order-independent over Object
attribute maps, is variant-sensitive (an Object is never equal to a List),
and the Object with attributes a:String is not equal to the Object with
attributes a:String, b:Bool. -/
theorem claim_C5 :
    (∀ t : AttrType, t.wf = true → t.equal t = true)
  ∧ (∀ t1 t2 : AttrType, t1.wf = true → t2.wf = true → t1.equal t2 = t2.equal t1)
  ∧ (∀ e1 e2 : AttrType, e1.wf = true →
      (AttrType.listT e1).equal (.listT e2) = e1.equal e2)
  ∧ (∀ e1 e2 : AttrType, e1.wf = true →
      (AttrType.mapT e1).equal (.mapT e2) = e1.equal e2)
  ∧ (∀ ts ts' : List (String × AttrType), (AttrType.objectT ts).wf = true →
      ts.Perm ts' → (AttrType.objectT ts).equal (.objectT ts') = true)
  ∧ (∀ (ts : List (String × AttrType)) (e : AttrType),
      (AttrType.objectT ts).equal (.listT e) = false)
  ∧ (∀ (ts : List (String × AttrType)) (e : AttrType),
      (AttrType.listT e).equal (.objectT ts) = false)
  ∧ (AttrType.objectT [("a", .stringT)]).equal
      (.objectT [("a", .stringT), ("b", .boolT)]) = false := by
  refine ⟨?_, ?_, ?_, ?_, equal_perm_object, ?_, ?_, rfl⟩
  · intro t hwf
    exact equal_refl_aux (sizeOf t) t le_rfl hwf
  · intro t1 t2 h1 h2
    exact equal_symm_aux (sizeOf t1 + sizeOf t2) t1 t2 le_rfl h1 h2
  · intro e1 e2 hwf
    simp [AttrType.equal, beq_nilT_eq_false_of_wf e1 hwf]
  · intro e1 e2 hwf
    simp [AttrType.equal, beq_nilT_eq_false_of_wf e1 hwf]
  · intro ts e
    simp [AttrType.equal]
  · intro ts e
    simp [AttrType.equal]

/-- C5 witness: reflexivity, symmetry and order-independence applied at
concrete well-formed Types. -/
theorem claim_C5_witness :
    (AttrType.objectT [("a", .stringT), ("b", .boolT)]).wf = true
  ∧ AttrType.equal (.objectT [("a", .stringT), ("b", .boolT)])
      (.objectT [("a", .stringT), ("b", .boolT)]) = true
  ∧ AttrType.equal (.objectT [("a", .stringT), ("b", .boolT)])
      (.objectT [("b", .boolT), ("a", .stringT)]) = true
  ∧ (AttrType.listT .stringT).wf = true
  ∧ AttrType.equal (.listT .stringT) (.objectT [])
      = AttrType.equal (.objectT []) (.listT .stringT) :=
  ⟨by decide,
   claim_C5.1 (.objectT [("a", .stringT), ("b", .boolT)]) (by decide),
   claim_C5.2.2.2.2.1 [("a", .stringT), ("b", .boolT)] [("b", .boolT), ("a", .stringT)]
     (by decide) (List.Perm.swap _ _ _),
   rfl,
   claim_C5.2.1 (.listT .stringT) (.objectT []) rfl (by decide)⟩


theorem beq_eq_aux : ∀ n : Nat,
    (∀ a b : AttrType, sizeOf a ≤ n → a.beq b = true → a = b)
  ∧ (∀ as_ bs : List (String × AttrType), sizeOf as_ ≤ n →
      AttrType.beqFields as_ bs = true → as_ = bs) := by
  intro n
  induction n using Nat.strong_induction_on with
  | _ n ih =>
    constructor
    · intro a b hle h
      cases a with
      | stringT => cases b <;> simp [AttrType.beq] at h ⊢
      | boolT => cases b <;> simp [AttrType.beq] at h ⊢
      | numberT => cases b <;> simp [AttrType.beq] at h ⊢
      | nilT => cases b <;> simp [AttrType.beq] at h ⊢
      | listT e =>
        cases b with
        | listT e' =>
          have hlt : sizeOf e < n := by
            have : sizeOf e < sizeOf (AttrType.listT e) := by simp <;> omega
            omega
          rw [(ih (sizeOf e) hlt).1 e e' le_rfl (by simpa [AttrType.beq] using h)]
        | _ => simp [AttrType.beq] at h
      | mapT e =>
        cases b with
        | mapT e' =>
          have hlt : sizeOf e < n := by
            have : sizeOf e < sizeOf (AttrType.mapT e) := by simp <;> omega
            omega
          rw [(ih (sizeOf e) hlt).1 e e' le_rfl (by simpa [AttrType.beq] using h)]
        | _ => simp [AttrType.beq] at h
      | objectT ts =>
        cases b with
        | objectT ts' =>
          have hlt : sizeOf ts < n := by
            have : sizeOf ts < sizeOf (AttrType.objectT ts) := by simp <;> omega
            omega
          rw [(ih (sizeOf ts) hlt).2 ts ts' le_rfl (by simpa [AttrType.beq] using h)]
        | _ => simp [AttrType.beq] at h
    · intro as_ bs hle h
      cases as_ with
      | nil => cases bs with
        | nil => rfl
        | cons hd tl => simp [AttrType.beqFields] at h
      | cons hd tl =>
        cases bs with
        | nil => simp [AttrType.beqFields] at h
        | cons hd' tl' =>
          obtain ⟨k, v⟩ := hd
          obtain ⟨k', v'⟩ := hd'
          simp only [AttrType.beqFields, Bool.and_eq_true, beq_iff_eq] at h
          obtain ⟨⟨hk, hv⟩, htl⟩ := h
          have hlt1 : sizeOf v < n := by
            have h1 : sizeOf v < sizeOf ((k, v) :: tl) := by
              have : sizeOf (k, v) = 1 + sizeOf k + sizeOf v := rfl
              simp <;> omega
            omega
          have hlt2 : sizeOf tl < n := by
            have : sizeOf tl < sizeOf ((k, v) :: tl) := by simp <;> omega
            omega
          have hveq := (ih (sizeOf v) hlt1).1 v v' le_rfl hv
          have htleq := (ih (sizeOf tl) hlt2).2 tl tl' le_rfl htl
          rw [hk, hveq, htleq]

theorem AttrType.beq_eq {a b : AttrType} (h : a.beq b = true) : a = b :=
  (beq_eq_aux (sizeOf a)).1 a b le_rfl h

theorem beqFields_eq {as_ bs : List (String × AttrType)}
    (h : AttrType.beqFields as_ bs = true) : as_ = bs :=
  (beq_eq_aux (sizeOf as_)).2 as_ bs le_rfl h

theorem terraformTypeFields_map_fst :
    ∀ ts : List (String × AttrType),
      (AttrType.terraformTypeFields ts).map Prod.fst = ts.map Prod.fst := by
  intro ts
  induction ts with
  | nil => rfl
  | cons hd tl ih =>
    obtain ⟨k, t⟩ := hd
    simp [AttrType.terraformTypeFields, ih]

theorem lookup_terraformTypeFields :
    ∀ (ts : List (String × AttrType)) (k : String),
      (AttrType.terraformTypeFields ts).lookup k
        = (ts.lookup k).map AttrType.terraformType := by
  intro ts k
  induction ts with
  | nil => rfl
  | cons hd tl ih =>
    obtain ⟨k', t⟩ := hd
    by_cases hk : k = k'
    · simp [AttrType.terraformTypeFields, List.lookup, hk]
    · have hbeq : (k == k') = false := by simp [hk]
      simp [AttrType.terraformTypeFields, List.lookup, hbeq, ih]

theorem tfTypeEq_refl_aux : ∀ n : Nat, ∀ t : AttrType,
    sizeOf t ≤ n → t.wf = true →
    tfTypeEq t.terraformType t.terraformType = true := by
  intro n
  induction n using Nat.strong_induction_on with
  | _ n ih =>
    intro t hle hwf
    cases t with
    | stringT => rfl
    | boolT => rfl
    | numberT => rfl
    | nilT => simp [AttrType.wf] at hwf
    | listT e =>
      simp only [AttrType.wf] at hwf
      have hlt : sizeOf e < n := by
        have : sizeOf e < sizeOf (AttrType.listT e) := by simp <;> omega
        omega
      simpa [AttrType.terraformType, tfTypeEq] using ih (sizeOf e) hlt e le_rfl hwf
    | mapT e =>
      simp only [AttrType.wf] at hwf
      have hlt : sizeOf e < n := by
        have : sizeOf e < sizeOf (AttrType.mapT e) := by simp <;> omega
        omega
      simpa [AttrType.terraformType, tfTypeEq] using ih (sizeOf e) hlt e le_rfl hwf
    | objectT ts =>
      simp only [AttrType.wf, Bool.and_eq_true, decide_eq_true_eq] at hwf
      obtain ⟨hnd, hwfF⟩ := hwf
      have inner : ∀ rest : List (String × AttrType),
          (∀ p ∈ rest, p ∈ ts) →
          tfTypeFieldsEq (AttrType.terraformTypeFields rest)
            (AttrType.terraformTypeFields ts) = true := by
        intro rest
        induction rest with
        | nil => intro _; rfl
        | cons p tail ihr =>
          intro hsub
          obtain ⟨k, v⟩ := p
          have hmem : (k, v) ∈ ts := hsub _ (List.mem_cons_self _ _)
          have hlook : ts.lookup k = some v := lookup_eq_some_of_mem ts k v hnd hmem
          have hvwf : v.wf = true := wf_of_mem_wfFields hwfF hmem
          have hvlt : sizeOf v < n := by
            have h1 : sizeOf v < sizeOf ts := sizeOf_snd_lt_of_mem hmem
            have h2 : sizeOf ts < sizeOf (AttrType.objectT ts) := by simp <;> omega
            omega
          have hveq := ih (sizeOf v) hvlt v le_rfl hvwf
          simp only [AttrType.terraformTypeFields, tfTypeFieldsEq,
            lookup_terraformTypeFields, hlook, Option.map_some', hveq, Bool.true_and]
          exact ihr fun p hp => hsub _ (List.mem_cons_of_mem _ hp)
      simp only [AttrType.terraformType, tfTypeEq, beq_self_eq_true, Bool.true_and]
      exact inner ts fun p hp => hp

theorem mapElemsEqual_mem_iff :
    ∀ (ws kvs : List (String × AttrValue)),
      AttrValue.mapElemsEqual ws kvs = true
        ↔ ∀ p ∈ ws, ∃ v', kvs.lookup p.1 = some v' ∧ AttrValue.equal p.2 v' = true := by
  intro ws kvs
  induction ws with
  | nil => simp [AttrValue.mapElemsEqual]
  | cons hd tl ih =>
    obtain ⟨k, w⟩ := hd
    simp only [AttrValue.mapElemsEqual, Bool.and_eq_true, ih]
    constructor
    · rintro ⟨h1, h2⟩ p hp
      rcases List.mem_cons.mp hp with heq | htl
      · subst heq
        cases hlook : kvs.lookup k with
        | none => rw [hlook] at h1; cases h1
        | some v' =>
          rw [hlook] at h1
          exact ⟨v', rfl, h1⟩
      · exact h2 p htl
    · intro h
      constructor
      · obtain ⟨v', hl, he⟩ := h (k, w) (List.mem_cons_self _ _)
        rw [hl]
        exact he
      · intro p hp
        exact h p (List.mem_cons_of_mem _ hp)

theorem equalFields_refl_of_wf :
    ∀ ts : List (String × AttrType), (AttrType.objectT ts).wf = true →
      AttrType.equalFields ts ts = true := by
  intro ts hwf
  have := equal_refl_aux (sizeOf (AttrType.objectT ts)) (.objectT ts) le_rfl hwf
  simpa [AttrType.equal] using this



theorem terraformTypeFields_length :
    ∀ ts : List (String × AttrType),
      (AttrType.terraformTypeFields ts).length = ts.length := by
  intro ts
  have h := congrArg List.length (terraformTypeFields_map_fst ts)
  simpa using h

theorem forall2_mem :
    ∀ {ws kvs : List (String × AttrValue)},
      List.Forall₂ (fun pw pv => pw.1 = pv.1 ∧ AttrValue.equal pw.2 pv.2 = true) ws kvs →
      ∀ p ∈ ws, ∃ q ∈ kvs, p.1 = q.1 ∧ AttrValue.equal p.2 q.2 = true := by
  intro ws kvs h
  induction h with
  | nil => intro p hp; cases hp
  | @cons a b l1 l2 hr htail ih =>
    intro p hp
    rcases List.mem_cons.mp hp with heq | htl
    · subst heq
      exact ⟨b, List.mem_cons_self _ _, hr.1, hr.2⟩
    · obtain ⟨q, hq, hpq⟩ := ih p htl
      exact ⟨q, List.mem_cons_of_mem _ hq, hpq⟩

theorem mapElemsEqual_of_forall2 :
    ∀ {ws kvs : List (String × AttrValue)},
      (kvs.map Prod.fst).Nodup →
      List.Forall₂ (fun pw pv => pw.1 = pv.1 ∧ AttrValue.equal pw.2 pv.2 = true) ws kvs →
      AttrValue.mapElemsEqual ws kvs = true := by
  intro ws kvs hnd h
  rw [mapElemsEqual_mem_iff]
  intro p hp
  obtain ⟨q, hq, hfst, heq⟩ := forall2_mem h p hp
  obtain ⟨qk, qv⟩ := q
  refine ⟨qv, ?_, heq⟩
  rw [hfst]
  exact lookup_eq_some_of_mem kvs qk qv hnd hq

theorem wf_of_lookup :
    ∀ {ts : List (String × AttrType)} {k : String} {kt : AttrType},
      (AttrType.objectT ts).wf = true → ts.lookup k = some kt → kt.wf = true := by
  intro ts k kt hwf hl
  simp only [AttrType.wf, Bool.and_eq_true, decide_eq_true_eq] at hwf
  exact wf_of_mem_wfFields hwf.2 (mem_of_lookup_eq_some hl)



theorem roundtrip_aux : ∀ n : Nat,
    (∀ (t : AttrType) (v : AttrValue), sizeOf v ≤ n → t.wf = true →
      v.conformsTo t = true → v.exclusive = true →
      ∃ raw w, v.toTerraformValue = .ok raw
        ∧ validateRaw t.terraformType raw = true
        ∧ valueFromTerraform t (newValue t.terraformType raw) = .ok w
        ∧ w.equal v = true)
  ∧ (∀ (et : AttrType) (vs : List AttrValue), sizeOf vs ≤ n → et.wf = true →
      AttrValue.conformList vs et = true → AttrValue.exclusiveList vs = true →
      ∃ tfs ws, elemsToTerraform et vs = .ok tfs
        ∧ validateElems et.terraformType tfs = true
        ∧ elemsFromTerraform et tfs = .ok ws
        ∧ ws.length = vs.length
        ∧ AttrValue.elemsEqual ws vs = true)
  ∧ (∀ (et : AttrType) (kvs : List (String × AttrValue)), sizeOf kvs ≤ n →
      et.wf = true →
      AttrValue.conformPairs kvs et = true → AttrValue.exclusivePairs kvs = true →
      ∃ tfs ws, mapElemsToTerraform et kvs = .ok tfs
        ∧ validateMapElems et.terraformType tfs = true
        ∧ mapElemsFromTerraform et tfs = .ok ws
        ∧ ws.length = kvs.length
        ∧ List.Forall₂ (fun pw pv => pw.1 = pv.1 ∧ AttrValue.equal pw.2 pv.2 = true) ws kvs)
  ∧ (∀ (ts : List (String × AttrType)) (kvs : List (String × AttrValue)),
      sizeOf kvs ≤ n → (AttrType.objectT ts).wf = true →
      AttrValue.conformAttrs kvs ts = true → AttrValue.exclusivePairs kvs = true →
      ∃ tfs ws, objAttrsToTerraform ts kvs = .ok tfs
        ∧ validateObjElems (AttrType.terraformTypeFields ts) tfs = true
        ∧ tfs.map Prod.fst = kvs.map Prod.fst
        ∧ objAttrsFromTerraform ts tfs = .ok ws
        ∧ ws.length = kvs.length
        ∧ List.Forall₂ (fun pw pv => pw.1 = pv.1 ∧ AttrValue.equal pw.2 pv.2 = true) ws kvs) := by
  intro n
  induction n using Nat.strong_induction_on with
  | _ n ih =>
    refine ⟨?_, ?_, ?_, ?_⟩
    · intro t v hle hwf hconf hexc
      cases v with
      | str u nn s =>
        cases t with
        | stringT =>
          cases nn with
          | true =>
            cases u with
            | true => simp [AttrValue.exclusive] at hexc
            | false =>
              have hs : s = "" := by simpa [AttrValue.exclusive] using hexc
              subst hs
              exact ⟨.null, .str false true "", rfl, rfl, rfl, rfl⟩
          | false =>
            cases u with
            | true =>
              have hs : s = "" := by simpa [AttrValue.exclusive] using hexc
              subst hs
              exact ⟨.unknown, .str true false "", rfl, rfl, rfl, rfl⟩
            | false =>
              refine ⟨.str s, .str false false s, rfl, rfl, rfl, ?_⟩
              simp [AttrValue.equal]
        | boolT => simp [AttrValue.conformsTo] at hconf
        | numberT => simp [AttrValue.conformsTo] at hconf
        | nilT => simp [AttrType.wf] at hwf
        | listT te => simp [AttrValue.conformsTo] at hconf
        | mapT te => simp [AttrValue.conformsTo] at hconf
        | objectT ts => simp [AttrValue.conformsTo] at hconf
      | num u nn q =>
        cases t with
        | numberT =>
          cases nn with
          | true =>
            cases u with
            | true => simp [AttrValue.exclusive] at hexc
            | false =>
              have hq : q = none := by
                simpa [AttrValue.exclusive, Option.isNone_iff_eq_none] using hexc
              subst hq
              exact ⟨.null, .num false true none, rfl, rfl, rfl, rfl⟩
          | false =>
            cases u with
            | true =>
              have hq : q = none := by
                simpa [AttrValue.exclusive, Option.isNone_iff_eq_none] using hexc
              subst hq
              exact ⟨.unknown, .num true false none, rfl, rfl, rfl, rfl⟩
            | false =>
              have hq : q.isSome = true := by
                simpa [AttrValue.conformsTo] using hconf
              obtain ⟨q', rfl⟩ := Option.isSome_iff_exists.mp hq
              refine ⟨.num q', .num false false (some q'), rfl, rfl, rfl, ?_⟩
              simp [AttrValue.equal]
        | stringT => simp [AttrValue.conformsTo] at hconf
        | boolT => simp [AttrValue.conformsTo] at hconf
        | nilT => simp [AttrType.wf] at hwf
        | listT te => simp [AttrValue.conformsTo] at hconf
        | mapT te => simp [AttrValue.conformsTo] at hconf
        | objectT ts => simp [AttrValue.conformsTo] at hconf
      | boolv u nn b =>
        cases t with
        | boolT =>
          cases nn with
          | true =>
            cases u with
            | true => simp [AttrValue.exclusive] at hexc
            | false =>
              have hb : b = false := by simpa [AttrValue.exclusive] using hexc
              subst hb
              exact ⟨.null, .boolv false true false, rfl, rfl, rfl, rfl⟩
          | false =>
            cases u with
            | true =>
              have hb : b = false := by simpa [AttrValue.exclusive] using hexc
              subst hb
              exact ⟨.unknown, .boolv true false false, rfl, rfl, rfl, rfl⟩
            | false =>
              refine ⟨.boolv b, .boolv false false b, rfl, rfl, rfl, ?_⟩
              simp [AttrValue.equal]
        | stringT => simp [AttrValue.conformsTo] at hconf
        | numberT => simp [AttrValue.conformsTo] at hconf
        | nilT => simp [AttrType.wf] at hwf
        | listT te => simp [AttrValue.conformsTo] at hconf
        | mapT te => simp [AttrValue.conformsTo] at hconf
        | objectT ts => simp [AttrValue.conformsTo] at hconf
      | list u nn es et =>
        cases t with
        | listT te =>
          simp only [AttrValue.conformsTo, Bool.and_eq_true] at hconf
          obtain ⟨hbeq, hconfL⟩ := hconf
          obtain rfl : et = te := AttrType.beq_eq hbeq
          simp only [AttrType.wf] at hwf
          have htEq : tfTypeEq (AttrType.terraformType (.listT et))
              (AttrType.terraformType (.listT et)) = true :=
            tfTypeEq_refl_aux (sizeOf (AttrType.listT et)) (.listT et) le_rfl
              (by simpa [AttrType.wf] using hwf)
          have hetEq : et.equal et = true := equal_refl_aux (sizeOf et) et le_rfl hwf
          cases u with
          | true =>
            cases nn with
            | true => simp [AttrValue.exclusive] at hexc
            | false =>
              have hes : es = [] := by
                simpa [AttrValue.exclusive, List.isEmpty_iff] using hexc
              subst hes
              refine ⟨.unknown, .list true false [] et, rfl, rfl, ?_, ?_⟩
              · simp [valueFromTerraform, newValue, htEq]
              · simp [AttrValue.equal, AttrValue.elemsEqual, hetEq]
          | false =>
            cases nn with
            | true =>
              have hes : es = [] := by
                simpa [AttrValue.exclusive, List.isEmpty_iff] using hexc
              subst hes
              refine ⟨.null, .list false true [] et, rfl, rfl, ?_, ?_⟩
              · simp [valueFromTerraform, newValue, htEq]
              · simp [AttrValue.equal, AttrValue.elemsEqual, hetEq]
            | false =>
              have hexcL : AttrValue.exclusiveList es = true := by
                simpa [AttrValue.exclusive] using hexc
              have hlt : sizeOf es < n := by
                have : sizeOf es < sizeOf (AttrValue.list false false es et) := by
                  simp <;> omega
                omega
              obtain ⟨tfs, ws, henc, hval, hdec, hlen, heq⟩ :=
                (ih (sizeOf es) hlt).2.1 et es le_rfl hwf hconfL hexcL
              refine ⟨.coll tfs, .list false false ws et, ?_, ?_, ?_, ?_⟩
              · simp [AttrValue.toTerraformValue, henc]
              · simpa [validateRaw, AttrType.terraformType] using hval
              · simp [valueFromTerraform, newValue, htEq, hdec]
              · simp [AttrValue.equal, hetEq, hlen, heq]
        | stringT => simp [AttrValue.conformsTo] at hconf
        | numberT => simp [AttrValue.conformsTo] at hconf
        | boolT => simp [AttrValue.conformsTo] at hconf
        | nilT => simp [AttrType.wf] at hwf
        | mapT te => simp [AttrValue.conformsTo] at hconf
        | objectT ts => simp [AttrValue.conformsTo] at hconf
      | mapv u nn es et =>
        cases t with
        | mapT te =>
          simp only [AttrValue.conformsTo, Bool.and_eq_true] at hconf
          obtain ⟨⟨hbeq, hnd⟩, hconfP⟩ := hconf
          obtain rfl : et = te := AttrType.beq_eq hbeq
          simp only [AttrType.wf] at hwf
          have hndP : (es.map Prod.fst).Nodup := of_decide_eq_true hnd
          have htEq : tfTypeEq (AttrType.terraformType (.mapT et))
              (AttrType.terraformType (.mapT et)) = true :=
            tfTypeEq_refl_aux (sizeOf (AttrType.mapT et)) (.mapT et) le_rfl
              (by simpa [AttrType.wf] using hwf)
          have hisMap : isMapTfType (AttrType.terraformType (.mapT et)) = true := rfl
          have hetEq : et.equal et = true := equal_refl_aux (sizeOf et) et le_rfl hwf
          cases u with
          | true =>
            cases nn with
            | true => simp [AttrValue.exclusive] at hexc
            | false =>
              have hes : es = [] := by
                simpa [AttrValue.exclusive, List.isEmpty_iff] using hexc
              subst hes
              refine ⟨.unknown, .mapv true false [] et, rfl, rfl, ?_, ?_⟩
              · simp [valueFromTerraform, newValue, htEq, hisMap]
              · simp [AttrValue.equal, AttrValue.mapElemsEqual, hetEq]
          | false =>
            cases nn with
            | true =>
              have hes : es = [] := by
                simpa [AttrValue.exclusive, List.isEmpty_iff] using hexc
              subst hes
              refine ⟨.null, .mapv false true [] et, rfl, rfl, ?_, ?_⟩
              · simp [valueFromTerraform, newValue, htEq, hisMap]
              · simp [AttrValue.equal, AttrValue.mapElemsEqual, hetEq]
            | false =>
              have hexcP : AttrValue.exclusivePairs es = true := by
                simpa [AttrValue.exclusive] using hexc
              have hlt : sizeOf es < n := by
                have : sizeOf es < sizeOf (AttrValue.mapv false false es et) := by
                  simp <;> omega
                omega
              obtain ⟨tfs, ws, henc, hval, hdec, hlen, heq⟩ :=
                (ih (sizeOf es) hlt).2.2.1 et es le_rfl hwf hconfP hexcP
              refine ⟨.mapc tfs, .mapv false false ws et, ?_, ?_, ?_, ?_⟩
              · simp [AttrValue.toTerraformValue, henc]
              · simpa [validateRaw, AttrType.terraformType] using hval
              · simp [valueFromTerraform, newValue, htEq, hisMap, hdec]
              · simp [AttrValue.equal, hetEq, hlen, mapElemsEqual_of_forall2 hndP heq]
        | stringT => simp [AttrValue.conformsTo] at hconf
        | numberT => simp [AttrValue.conformsTo] at hconf
        | boolT => simp [AttrValue.conformsTo] at hconf
        | nilT => simp [AttrType.wf] at hwf
        | listT te => simp [AttrValue.conformsTo] at hconf
        | objectT ts => simp [AttrValue.conformsTo] at hconf
      | obj u nn attrs ats =>
        cases t with
        | objectT ts =>
          simp only [AttrValue.conformsTo, Bool.and_eq_true] at hconf
          obtain ⟨⟨⟨hbeq, hlenC⟩, hnd⟩, hconfA⟩ := hconf
          obtain rfl : ts = ats := (beqFields_eq hbeq).symm
          have hndA : (attrs.map Prod.fst).Nodup := of_decide_eq_true hnd
          have hlenA : attrs.length = ts.length := by simpa using hlenC
          have htEq : tfTypeEq (AttrType.terraformType (.objectT ts))
              (AttrType.terraformType (.objectT ts)) = true :=
            tfTypeEq_refl_aux (sizeOf (AttrType.objectT ts)) (.objectT ts) le_rfl hwf
          have hfEq : AttrType.equalFields ts ts = true := equalFields_refl_of_wf ts hwf
          cases u with
          | true =>
            cases nn with
            | true => simp [AttrValue.exclusive] at hexc
            | false =>
              have hes : attrs = [] := by
                simpa [AttrValue.exclusive, List.isEmpty_iff] using hexc
              subst hes
              refine ⟨.unknown, .obj true false [] ts, rfl, rfl, ?_, ?_⟩
              · simp [valueFromTerraform, newValue, htEq]
              · simp [AttrValue.equal, AttrValue.mapElemsEqual, hfEq]
          | false =>
            cases nn with
            | true =>
              have hes : attrs = [] := by
                simpa [AttrValue.exclusive, List.isEmpty_iff] using hexc
              subst hes
              refine ⟨.null, .obj false true [] ts, rfl, rfl, ?_, ?_⟩
              · simp [valueFromTerraform, newValue, htEq]
              · simp [AttrValue.equal, AttrValue.mapElemsEqual, hfEq]
            | false =>
              have hexcP : AttrValue.exclusivePairs attrs = true := by
                simpa [AttrValue.exclusive] using hexc
              have hlt : sizeOf attrs < n := by
                have : sizeOf attrs < sizeOf (AttrValue.obj false false attrs ts) := by
                  simp <;> omega
                omega
              obtain ⟨tfs, ws, henc, hval, hkeys, hdec, hlen, heq⟩ :=
                (ih (sizeOf attrs) hlt).2.2.2 ts attrs le_rfl hwf hconfA hexcP
              have hlenT : tfs.length = attrs.length := by
                have := congrArg List.length hkeys
                simpa using this
              have hlenV : (tfs.length == (AttrType.terraformTypeFields ts).length) = true := by
                simp [hlenT, hlenA, terraformTypeFields_length]
              refine ⟨.mapc tfs, .obj false false ws ts, ?_, ?_, ?_, ?_⟩
              · simp [AttrValue.toTerraformValue, henc]
              · simp [validateRaw, AttrType.terraformType, hlenV, hval]
              · simp [valueFromTerraform, newValue, htEq, hdec]
              · simp [AttrValue.equal, hfEq, hlen, mapElemsEqual_of_forall2 hndA heq]
        | stringT => simp [AttrValue.conformsTo] at hconf
        | numberT => simp [AttrValue.conformsTo] at hconf
        | boolT => simp [AttrValue.conformsTo] at hconf
        | nilT => simp [AttrType.wf] at hwf
        | listT te => simp [AttrValue.conformsTo] at hconf
        | mapT te => simp [AttrValue.conformsTo] at hconf
    · intro et vs hle hwf hconf hexc
      cases vs with
      | nil => exact ⟨[], [], rfl, rfl, rfl, rfl, rfl⟩
      | cons v rest =>
        simp only [AttrValue.conformList, Bool.and_eq_true] at hconf
        simp only [AttrValue.exclusiveList, Bool.and_eq_true] at hexc
        have hltv : sizeOf v < n := by
          have : sizeOf v < sizeOf (v :: rest) := by simp <;> omega
          omega
        have hltr : sizeOf rest < n := by
          have : sizeOf rest < sizeOf (v :: rest) := by simp <;> omega
          omega
        obtain ⟨raw, w, henc, hval, hdec, heq⟩ :=
          (ih (sizeOf v) hltv).1 et v le_rfl hwf hconf.1 hexc.1
        obtain ⟨tfs, ws, hencR, hvalR, hdecR, hlenR, heqR⟩ :=
          (ih (sizeOf rest) hltr).2.1 et rest le_rfl hwf hconf.2 hexc.2
        refine ⟨newValue et.terraformType raw :: tfs, w :: ws, ?_, ?_, ?_, ?_, ?_⟩
        · simp [elemsToTerraform, henc, hval, hencR]
        · simp [validateElems, newValue, TfValue.typ,
            tfTypeEq_refl_aux (sizeOf et) et le_rfl hwf, hvalR]
        · simp [elemsFromTerraform, hdec, hdecR]
        · simp [hlenR]
        · simp [AttrValue.elemsEqual, heq, heqR]
    · intro et kvs hle hwf hconf hexc
      cases kvs with
      | nil => exact ⟨[], [], rfl, rfl, rfl, rfl, List.Forall₂.nil⟩
      | cons kv rest =>
        obtain ⟨k, v⟩ := kv
        simp only [AttrValue.conformPairs, Bool.and_eq_true] at hconf
        simp only [AttrValue.exclusivePairs, Bool.and_eq_true] at hexc
        have hltv : sizeOf v < n := by
          have : sizeOf v < sizeOf ((k, v) :: rest) := by simp <;> omega
          omega
        have hltr : sizeOf rest < n := by
          have : sizeOf rest < sizeOf ((k, v) :: rest) := by simp <;> omega
          omega
        obtain ⟨raw, w, henc, hval, hdec, heq⟩ :=
          (ih (sizeOf v) hltv).1 et v le_rfl hwf hconf.1 hexc.1
        obtain ⟨tfs, ws, hencR, hvalR, hdecR, hlenR, heqR⟩ :=
          (ih (sizeOf rest) hltr).2.2.1 et rest le_rfl hwf hconf.2 hexc.2
        refine ⟨(k, newValue et.terraformType raw) :: tfs, (k, w) :: ws, ?_, ?_, ?_, ?_, ?_⟩
        · simp [mapElemsToTerraform, henc, hval, hencR]
        · simp [validateMapElems, newValue, TfValue.typ,
            tfTypeEq_refl_aux (sizeOf et) et le_rfl hwf, hvalR]
        · simp [mapElemsFromTerraform, hdec, hdecR]
        · simp [hlenR]
        · exact List.Forall₂.cons ⟨rfl, heq⟩ heqR
    · intro ts kvs hle hwf hconf hexc
      cases kvs with
      | nil => exact ⟨[], [], rfl, rfl, rfl, rfl, rfl, List.Forall₂.nil⟩
      | cons kv rest =>
        obtain ⟨k, v⟩ := kv
        simp only [AttrValue.conformAttrs, Bool.and_eq_true] at hconf
        obtain ⟨hconfV, hconfR⟩ := hconf
        simp only [AttrValue.exclusivePairs, Bool.and_eq_true] at hexc
        cases hkt : ts.lookup k with
        | none => rw [hkt] at hconfV; cases hconfV
        | some kt =>
          rw [hkt] at hconfV
          have hktwf : kt.wf = true := wf_of_lookup hwf hkt
          have hltv : sizeOf v < n := by
            have : sizeOf v < sizeOf ((k, v) :: rest) := by simp <;> omega
            omega
          have hltr : sizeOf rest < n := by
            have : sizeOf rest < sizeOf ((k, v) :: rest) := by simp <;> omega
            omega
          obtain ⟨raw, w, henc, hval, hdec, heq⟩ :=
            (ih (sizeOf v) hltv).1 kt v le_rfl hktwf hconfV hexc.1
          obtain ⟨tfs, ws, hencR, hvalR, hkeysR, hdecR, hlenR, heqR⟩ :=
            (ih (sizeOf rest) hltr).2.2.2 ts rest le_rfl hwf hconfR hexc.2
          have hlookTT : (AttrType.terraformTypeFields ts).lookup k
              = some kt.terraformType := by
            rw [lookup_terraformTypeFields, hkt]
            rfl
          refine ⟨(k, newValue kt.terraformType raw) :: tfs, (k, w) :: ws,
            ?_, ?_, ?_, ?_, ?_, ?_⟩
          · simp [objAttrsToTerraform, henc, hkt, hval, hencR]
          · simp [validateObjElems, hlookTT, newValue, TfValue.typ,
              tfTypeEq_refl_aux (sizeOf kt) kt le_rfl hktwf, hvalR]
          · simp [hkeysR]
          · simp [objAttrsFromTerraform, hkt, hdec, hdecR]
          · simp [hlenR]
          · exact List.Forall₂.cons ⟨rfl, heq⟩ heqR



/-- C3 (amended): for every constructible Value whose payload conforms to
its well-formed declared Type and whose unknown or null nodes carry
zero-valued residual payloads (in particular every canonical Known value),
decoding the wire encoding — ValueFromTerraform applied to the result of
ToTerraformValue — succeeds and yields a Value equal to the original under
Value.Equal, with no precision loss for Number payloads, no element-order
loss for List, and no key loss for Map. -/
theorem claim_C3 :
    ∀ (t : AttrType) (v : AttrValue), t.wf = true → v.conformsTo t = true →
      v.canonical = true →
      ∃ raw w, v.toTerraformValue = .ok raw
        ∧ valueFromTerraform t (newValue t.terraformType raw) = .ok w
        ∧ w.equal v = true := by
  intro t v hwf hconf hcan
  obtain ⟨raw, w, henc, _, hdec, heq⟩ :=
    (roundtrip_aux (sizeOf v)).1 t v le_rfl hwf hconf hcan
  exact ⟨raw, w, henc, hdec, heq⟩

/-- C3 witness: the round-trip applied to a concrete two-element list
value (element order preserved) and the hypotheses discharged by
evaluation. -/
theorem claim_C3_witness :
    (AttrType.listT .stringT).wf = true
  ∧ AttrValue.conformsTo
      (.list false false [.str false false "b", .str false false "a"] .stringT)
      (.listT .stringT) = true
  ∧ AttrValue.canonical
      (.list false false [.str false false "b", .str false false "a"] .stringT) = true
  ∧ ∃ raw w,
      AttrValue.toTerraformValue
          (.list false false [.str false false "b", .str false false "a"] .stringT)
        = .ok raw
      ∧ valueFromTerraform (.listT .stringT)
          (newValue (AttrType.terraformType (.listT .stringT)) raw) = .ok w
      ∧ w.equal
          (.list false false [.str false false "b", .str false false "a"] .stringT)
        = true :=
  ⟨rfl, rfl, rfl,
   claim_C3 (.listT .stringT)
     (.list false false [.str false false "b", .str false false "a"] .stringT)
     rfl rfl rfl⟩

/-- C3 counterexample: the claim as stated fails — a constructible Known
List value whose payload conforms to its Type but whose Unknown element
carries a nonempty residual string does not round-trip to an Equal value,
because the wire encoding erases the residual and Value.Equal compares
it. -/
theorem claim_C3_counterexample :
    AttrValue.conformsTo (.list false false [.str true false "x"] .stringT)
      (.listT .stringT) = true
  ∧ AttrValue.toTerraformValue (.list false false [.str true false "x"] .stringT)
      = .ok (.coll [.mk .string .unknown])
  ∧ valueFromTerraform (.listT .stringT)
      (newValue (AttrType.terraformType (.listT .stringT)) (.coll [.mk .string .unknown]))
      = .ok (.list false false [.str true false ""] .stringT)
  ∧ AttrValue.equal (.list false false [.str true false ""] .stringT)
      (.list false false [.str true false "x"] .stringT) = false :=
  ⟨rfl, rfl, rfl, rfl⟩

end TfFw
